import Mathlib

/-!
Verification of the build-plan synthesizer in `configure.py` of the dogcomp
repository.  The development shallowly embeds the synthesizer:

* the path manipulations of `pathlib` that the script uses (`stem`, `suffix`,
  `with_suffix("")`, `parts`, `/`-joining) are modelled on `String`s holding
  `/`-separated paths;
* the `build` helper and the `build_stuff` driver are modelled as pure
  functions from a segment list (`Entry`) and a filesystem abstraction (`FS`)
  to an `Except`-wrapped run output; `sys.exit(1)`, `UnboundLocalError` and
  `IndexError` aborts become `Except.error`;
* the Python `set` used for `built_objects` keeps its contents as an
  insertion-ordered duplicate-free list, and its (hash-seed dependent)
  iteration order is an explicit parameter `setOrder` of the run;
* the erratum patcher (`replace_instructions_with_opcodes`) and its regex
  `OPCODE_PATTERN` are modelled by an executable leftmost/greedy matcher on
  lines of characters, and the file tree it walks by a list of stem/content
  records.
-/

deriving instance DecidableEq for Except

namespace Dogcomp

/-! ### Constants from the script -/

def OUT_DIR : String := "build"

def LINK_DIR : String := "linkers"

def CONFIG_PATH : String := "configs"

def BASENAME : String := "SCES_512.48"

def LD_PATH : String := LINK_DIR ++ "/" ++ BASENAME ++ ".ld"

def ELF_PATH : String := OUT_DIR ++ "/" ++ BASENAME

def MAP_PATH : String := OUT_DIR ++ "/" ++ BASENAME ++ ".map"

def PRE_ELF_PATH : String := OUT_DIR ++ "/" ++ BASENAME ++ ".elf"

def TARGET_DIR : String := "target"

/-- `CATEGORY_MAP` of the script, in insertion order of the Python dict. -/
def CATEGORY_MAP : List (String × String) := [("game", "Main"), ("data", "Data")]

/-! ### Path helpers (pathlib semantics on `/`-separated strings) -/

/-- Split a character list at every occurrence of `sep` (Python
`str.split(sep)` for a one-character separator). -/
def splitOnChar (sep : Char) : List Char → List (List Char)
  | [] => [[]]
  | c :: t =>
    if c = sep then [] :: splitOnChar sep t
    else
      match splitOnChar sep t with
      | [] => [[c]]
      | l :: ls => (c :: l) :: ls

/-- Interleave `sep` between the pieces (inverse of `splitOnChar`). -/
def joinChar (sep : Char) : List (List Char) → List Char
  | [] => []
  | [l] => l
  | l :: ls => l ++ sep :: joinChar sep ls

/-- `Path(s).parts` for a relative path without redundant separators. -/
def pathParts (s : String) : List String :=
  (splitOnChar '/' s.toList).map List.asString

/-- Join path components with `/`, as `str(Path(*parts))` does. -/
def joinParts (ps : List String) : String :=
  (joinChar '/' (ps.map String.toList)).asString

/-- The final path component, `Path(s).name`. -/
def fileName (p : String) : String := (pathParts p).getLastD ""

/-- Split a file NAME into pathlib's `(stem, suffix)`.  The suffix is the part
from the last dot on, but a name with no dot, a leading-dot name such as
`.bashrc`, and a trailing-dot name have an empty suffix. -/
def extSplit (n : String) : String × String :=
  let cs := n.toList
  let revExt := cs.reverse.takeWhile (fun c => c ≠ '.')
  match cs.reverse.dropWhile (fun c => c ≠ '.') with
  | '.' :: restRev =>
    if restRev = [] ∨ revExt = [] then (n, "")
    else (restRev.reverse.asString, ('.' :: revExt.reverse).asString)
  | _ => (n, "")

/-- `Path(p).suffix`. -/
def pathSuffix (p : String) : String := (extSplit (fileName p)).2

/-- `Path(p).stem`. -/
def pathStem (p : String) : String := (extSplit (fileName p)).1

/-- `str(Path(p).with_suffix(""))`: drop the last extension of the final
component. -/
def withSuffixEmpty (p : String) : String :=
  joinParts ((pathParts p).dropLast ++ [pathStem p])

/-- Does `needle` occur as a contiguous character run of `hay`?  Models the
Python `needle in hay` substring test. -/
def seqContains (needle hay : List Char) : Bool :=
  match hay with
  | [] => needle.isEmpty
  | c :: t => needle.isPrefixOf (c :: t) || seqContains needle t

/-- Python's `needle in hay` on strings. -/
def strContains (hay needle : String) : Bool := seqContains needle.toList hay.toList

/-! ### Data model of the synthesizer -/

/-- The segment kinds `build_stuff` distinguishes.  The six `isinstance`
groups that map to the `as` rule are kept apart; `virt t` models a segment
whose `seg.type` string `t` begins with `"."` (the `seg.type[0] == "."`
check); `unknown t` is any other unrecognized type tag `t`. -/
inductive SegKind where
  | asmSeg | dataSeg | databinSeg | rodatabinSeg | textbinSeg | binSeg
  | cppSeg | cSeg
  | virt (t : String)
  | unknown (t : String)
deriving DecidableEq, Repr

/-- The `seg.type` string used in the `Unsupported build segment type` error
message. -/
def SegKind.typeTag : SegKind → String
  | .asmSeg => "asm"
  | .dataSeg => "data"
  | .databinSeg => "databin"
  | .rodatabinSeg => "rodatabin"
  | .textbinSeg => "textbin"
  | .binSeg => "bin"
  | .cppSeg => "cpp"
  | .cSeg => "c"
  | .virt t => t
  | .unknown t => t

/-- Does the type tag start with `"."` (`seg.type[0] == "."`)? -/
def SegKind.isVirt : SegKind → Bool
  | .virt _ => true
  | _ => false

/-- The ninja rule selected by the `isinstance` dispatch, `none` for an
unrecognized kind. -/
def SegKind.taskOf : SegKind → Option String
  | .asmSeg | .dataSeg | .databinSeg | .rodatabinSeg | .textbinSeg | .binSeg => some "as"
  | .cppSeg => some "cpp"
  | .cSeg => some "cc"
  | .virt _ => none
  | .unknown _ => none

/-- One splat `LinkerEntry`: the segment kind, the optional declared object
path, and the ordered source paths. -/
structure Entry where
  kind : SegKind
  objectPath : Option String
  srcPaths : List String
deriving DecidableEq, Repr

/-- One emitted ninja build statement. -/
structure Node where
  outputs : List String
  rule : String
  inputs : List String
  vars : List (String × String)
  implicit : List String
  implicitOutputs : List String
deriving DecidableEq, Repr

/-- One record of the `objdiff.json` `units` list. -/
structure UnitRec where
  name : String
  base_path : String
  target_path : String
  categories : List String
deriving DecidableEq, Repr

/-- The filesystem knowledge the synthesizer consults: the file names (with
extension) that exist anywhere under the `src/` tree, as searched by
`Path("src").rglob(name + ext)`. -/
structure FS where
  srcFiles : List String
deriving DecidableEq, Repr

/-- The mutable state of `build_stuff` while the segment loop runs:
`built_objects` (contents of the Python set, insertion-ordered and
duplicate-free), `objdiff_units`, and the build statements written so far. -/
structure St where
  objs : List String
  units : List UnitRec
  nodes : List Node
deriving DecidableEq, Repr

/-- Add a path to the `built_objects` set: contents are kept duplicate-free. -/
def addObj (objs : List String) (p : String) : List String :=
  if objs.contains p then objs else objs ++ [p]

/-- The serialized `objdiff.json` document of diff mode. -/
structure Manifest where
  schema : String
  custom_make : String
  custom_args : List String
  build_target : Bool
  build_base : Bool
  watch_patterns : List String
  units : List UnitRec
  progress_categories : List (String × String)
deriving DecidableEq, Repr

def WATCH_PATTERNS : List String :=
  ["src/**/*.c", "src/**/*.cp", "src/**/*.cpp", "src/**/*.cxx",
   "src/**/*.h", "src/**/*.hp", "src/**/*.hpp", "src/**/*.hxx",
   "src/**/*.s", "src/**/*.S", "src/**/*.asm", "src/**/*.inc",
   "src/**/*.py", "src/**/*.yml", "src/**/*.txt", "src/**/*.json"]

def mkManifest (us : List UnitRec) : Manifest :=
  { schema := "https://raw.githubusercontent.com/encounter/objdiff/main/config.schema.json"
    custom_make := "ninja"
    custom_args := []
    build_target := false
    build_base := true
    watch_patterns := WATCH_PATTERNS
    units := us
    progress_categories := CATEGORY_MAP }

/-! ### The `build` helper -/

/-- The stem `build` computes for an output file NAME when `out_dir` is set:
the pathlib stem, except that a double `.s.o`/`.c.o` extension is dropped down
to the bare stem. -/
def objStem (n : String) : String :=
  let sfx := (extSplit n).2
  if sfx = ".s" ∨ sfx = ".c" then (extSplit n).1
  else if sfx = ".o" ∧ ((extSplit (extSplit n).1).2 = ".s" ∨ (extSplit (extSplit n).1).2 = ".c") then
    (extSplit (extSplit n).1).1
  else (extSplit n).1

/-- The output-path rewrite `build` applies when `out_dir` is set: take the
declared object's stem (dropping a double `.s.o`/`.c.o` extension down to the
bare stem), and place `stem + ".o"` directly under `out_dir`.  All directory
components of the declared path are discarded. -/
def rewriteOut (outDir : String) (obj : String) : String :=
  outDir ++ "/" ++ objStem (fileName obj) ++ ".o"

/-- Replace the first path component exactly equal to `"target"` by
`"build/obj/src"`, leaving every other component untouched (the `for`/`break`
loop over `Path(object_path).parts`). -/
def replaceFirstTarget : List String → List String
  | [] => []
  | p :: ps => if p = "target" then "build/obj/src" :: ps else p :: replaceFirstTarget ps

/-- The `rel` path of the unit-name computation: the first source path with a
leading `asm` or `src` component stripped. -/
def unitRel (s : String) : String :=
  let parts := pathParts s
  if parts.headD "" = "asm" ∨ parts.headD "" = "src" then joinParts parts.tail else s

/-- The stem searched for in the source tree (`src_base.name`). -/
def unitSrcStem (s : String) : String := fileName (withSuffixEmpty (unitRel s))

/-- Does a `.c` or `.cpp` file with the unit's stem exist anywhere under the
`src/` tree (the two `Path("src").rglob` searches)? -/
def hasRealSrc (fs : FS) (s : String) : Bool :=
  fs.srcFiles.contains (unitSrcStem s ++ ".c")
    || fs.srcFiles.contains (unitSrcStem s ++ ".cpp")

/-- The objdiff-unit collection of `build` (the `collect_objdiff` block):
given the rewritten output path, the original declared path, and the entry's
source paths, return the recorded units, or the abort the Python code would
raise (`UnboundLocalError` when neither category test matches, `IndexError`
when `src_paths` is empty but the output path contains `"target"`). -/
def collectUnit (fs : FS) (newPath origPath : String) (srcPaths : List String) :
    Except String (List UnitRec) :=
  match srcPaths with
  | s :: _ =>
    let name := withSuffixEmpty (unitRel s)
    if strContains newPath "target" then
      match (if strContains s "src/" then some ["game"]
             else if strContains s "asm/data" then some ["data"] else none) with
      | none => .error "UnboundLocalError: categories"
      | some cats =>
        let basePath :=
          if hasRealSrc fs s then joinParts (replaceFirstTarget (pathParts newPath))
          else origPath
        .ok [{ name := name, base_path := basePath, target_path := newPath, categories := cats }]
    else .ok []
  | [] =>
    if strContains newPath "target" then .error "IndexError: src_paths[0]"
    else .ok []

/-- The `build` helper of `build_stuff`, for the single-object-path calls the
script makes: rewrite the output when `out_dir` is set, add `.o` outputs to
`built_objects`, emit one build statement, and collect an objdiff unit when
requested. -/
def buildE (fs : FS) (st : St) (objectPath : String) (srcPaths : List String)
    (task : String) (outDir : Option String) (extraFlags : String)
    (collectObjdiff : Bool) : Except String St :=
  let newPath := match outDir with | some d => rewriteOut d objectPath | none => objectPath
  let objs' := if pathSuffix newPath = ".o" then addObj st.objs newPath else st.objs
  let vs : List (String × String) := if extraFlags = "" then [] else [("cflags", extraFlags)]
  let node : Node := { outputs := [newPath], rule := task, inputs := srcPaths,
                       vars := vs, implicit := [], implicitOutputs := [] }
  if collectObjdiff then
    match collectUnit fs newPath objectPath srcPaths with
    | .error m => .error m
    | .ok us => .ok { objs := objs', units := st.units ++ us, nodes := st.nodes ++ [node] }
  else
    .ok { objs := objs', units := st.units, nodes := st.nodes ++ [node] }

/-! ### The segment loop and the driver -/

/-- One iteration of the `for entry in linker_entries` loop of `build_stuff`:
skip dot-typed segments, skip entries without an object path, then dispatch on
the segment kind (`sys.exit(1)` on an unrecognized kind); in dual-object mode
build twice (instrumented-into-`target/` plus collected, then the original
path with `-DSKIP_ASM`). -/
def processEntry (fs : FS) (dual : Bool) (st : St) (e : Entry) : Except String St :=
  match e.kind.isVirt, e.objectPath, e.kind.taskOf, dual with
  | true, _, _, _ => .ok st
  | false, none, _, _ => .ok st
  | false, some op, some t, false => buildE fs st op e.srcPaths t none "" false
  | false, some op, some t, true =>
    match buildE fs st op e.srcPaths t (some TARGET_DIR) "" true with
    | .error m => .error m
    | .ok st' => buildE fs st' op e.srcPaths t none "-DSKIP_ASM" false
  | false, some _, none, _ =>
    .error ("ERROR: Unsupported build segment type " ++ e.kind.typeTag)

/-- The whole segment loop. -/
def processEntries (fs : FS) (dual : Bool) (st : St) : List Entry → Except String St
  | [] => .ok st
  | e :: es =>
    match processEntry fs dual st e with
    | .error m => .error m
    | .ok st' => processEntries fs dual st' es

/-- The observable output of one `build_stuff` run: the build statements in
emission order, the objdiff units, the contents of `built_objects`, and the
manifest document if one was serialized. -/
structure RunOut where
  nodes : List Node
  units : List UnitRec
  objs : List String
  manifest : Option Manifest
deriving DecidableEq, Repr

/-- `build_stuff`.  `setOrder` is the iteration order of the Python
`built_objects` set: the script writes `[str(obj) for obj in built_objects]`,
whose order depends on the interpreter's string-hash seed, so it is an
explicit parameter here; a faithful instantiation is any permutation. -/
def build_stuff (fs : FS) (entries : List Entry)
    (skipChecksum objectsOnly dualObjects : Bool)
    (setOrder : List String → List String) : Except String RunOut :=
  match processEntries fs dualObjects ⟨[], [], []⟩ entries with
  | .error m => .error m
  | .ok st =>
    if objectsOnly then
      .ok { nodes := st.nodes, units := st.units, objs := st.objs,
            manifest := if dualObjects then some (mkManifest st.units) else none }
    else
      let ldNode : Node := { outputs := [PRE_ELF_PATH], rule := "ld", inputs := [LD_PATH],
                             vars := [("mapfile", MAP_PATH)], implicit := setOrder st.objs,
                             implicitOutputs := [] }
      let elfNode : Node := { outputs := [ELF_PATH], rule := "elf", inputs := [PRE_ELF_PATH],
                              vars := [], implicit := [], implicitOutputs := [] }
      let shaNode : Node := { outputs := [ELF_PATH ++ ".ok"], rule := "sha1sum",
                              inputs := [CONFIG_PATH ++ "/checksum.sha1"],
                              vars := [], implicit := [ELF_PATH], implicitOutputs := [] }
      .ok { nodes := st.nodes ++ [ldNode, elfNode] ++ (if skipChecksum then [] else [shaNode]),
            units := st.units, objs := st.objs, manifest := none }

/-! ### Derived per-entry emission shapes -/

/-- The object path and rule of a buildable entry: an entry that is not
dot-typed, has a declared object path, and has a recognized kind. -/
def buildableTask (e : Entry) : Option (String × String) :=
  if e.kind.isVirt then none
  else
    match e.objectPath, e.kind.taskOf with
    | some op, some t => some (op, t)
    | _, _ => none

def mkNode (op : String) (srcs : List String) (t : String) (flags : String) : Node :=
  { outputs := [op], rule := t, inputs := srcs,
    vars := if flags = "" then [] else [("cflags", flags)],
    implicit := [], implicitOutputs := [] }

/-- The build statements one entry contributes in normal mode. -/
def emitNormal (e : Entry) : List Node :=
  match buildableTask e with
  | some (op, t) => [mkNode op e.srcPaths t ""]
  | none => []

/-- The build statements one entry contributes in dual-object (diff) mode. -/
def emitDiff (e : Entry) : List Node :=
  match buildableTask e with
  | some (op, t) =>
    [mkNode (rewriteOut TARGET_DIR op) e.srcPaths t "",
     mkNode op e.srcPaths t "-DSKIP_ASM"]
  | none => []

/-- The objdiff units one entry contributes in diff mode (when its collection
does not abort). -/
def unitsForE (fs : FS) (e : Entry) : List UnitRec :=
  match buildableTask e with
  | some (op, _) =>
    match collectUnit fs (rewriteOut TARGET_DIR op) op e.srcPaths with
    | .ok us => us
    | .error _ => []
  | none => []

/-- An entry the normal-mode loop handles without `sys.exit`. -/
def Processable (e : Entry) : Prop :=
  e.kind.isVirt = true ∨ e.objectPath = none ∨ e.kind.taskOf ≠ none

instance (e : Entry) : Decidable (Processable e) := by
  unfold Processable; infer_instance

/-- An entry whose diff-mode unit collection does not abort. -/
def DiffSafe (fs : FS) (e : Entry) : Prop :=
  ∀ op t, buildableTask e = some (op, t) →
    ∃ us, collectUnit fs (rewriteOut TARGET_DIR op) op e.srcPaths = .ok us

/-- Executable sufficient condition for `DiffSafe`. -/
def diffSafeB (fs : FS) (e : Entry) : Bool :=
  match buildableTask e with
  | some (op, _) =>
    match collectUnit fs (rewriteOut TARGET_DIR op) op e.srcPaths with
    | .ok _ => true
    | .error _ => false
  | none => true

/-! ### The erratum patcher

`OPCODE_PATTERN` is
`\/\* (.+) ([0-9A-Z]{2})([0-9A-Z]{2})([0-9A-Z]{2})([0-9A-Z]{2}) \*\/` followed
by two spaces and `(\b(bne|bnel|...|b)\b.*)`.  No character of the pattern can
match a newline, so every match lies within one line; the trailing `.*` is
greedy, so a match extends to the end of its line and each line is matched at
most once.  `re.sub` therefore acts line by line: on each line it finds the
leftmost start position admitting a match, with the greedy `(.+)` group taking
the longest text for which the rest of the pattern still matches.  The matcher
below implements exactly that. -/

/-- The `[0-9A-Z]` character class of the pattern. -/
def isHexUp (c : Char) : Bool := c.isDigit || c.isUpper

/-- A Python `\w` word character on ASCII input: letter, digit or underscore. -/
def isWordChar (c : Char) : Bool := c.isAlphanum || c = '_'

/-- The branch mnemonics of `INSTRUCTION_PART`. -/
def MNEMONICS : List (List Char) :=
  ["bne", "bnel", "beq", "beql", "beqz", "bnez", "bnezl", "beqzl", "bgez",
   "bgezl", "bgtz", "bgtzl", "blez", "blezl", "bltz", "bltzl", "b"].map String.toList

/-- The instruction part matches at `t` iff the maximal word-character run at
the head of `t` is one of the mnemonics (the regex alternation between `\b`
word boundaries). -/
def insOk (t : List Char) : Bool := MNEMONICS.contains (t.takeWhile isWordChar)

/-- Parse the fixed pattern tail after the free comment-text group: one space,
eight `[0-9A-Z]` characters (the four byte pairs), the literal `" */  "`, then
a branch instruction extending to the end of the line.  Returns the byte block
and the instruction text. -/
def parseTail (v : List Char) : Option (List Char × List Char) :=
  if v.head? = some ' ' ∧ ((v.drop 1).take 8).length = 8 ∧
      ((v.drop 1).take 8).all isHexUp = true ∧
      (v.drop 9).take 5 = [' ', '*', '/', ' ', ' '] ∧ insOk (v.drop 14) = true then
    some ((v.drop 1).take 8, v.drop 14)
  else none

/-- Greedy search for the `(.+)` group boundary: the largest `i ≥ 1` such that
the pattern tail parses at position `i` of `u`. -/
def bestAux (u : List Char) : Nat → Option (Nat × List Char × List Char)
  | 0 => none
  | i + 1 =>
    match parseTail (u.drop (i + 1)) with
    | some (B, t) => some (i + 1, B, t)
    | none => bestAux u i

def bestSplit (u : List Char) : Option (Nat × List Char × List Char) :=
  bestAux u u.length

/-- Match the pattern exactly at the start of `l`. -/
def tryAt (l : List Char) : Option (List Char × List Char × List Char) :=
  match l with
  | '/' :: '*' :: ' ' :: u =>
    match bestSplit u with
    | some (i, B, t) => some (u.take i, B, t)
    | none => none
  | _ => none

/-- Leftmost match of the pattern in a line: the unmatched prefix, the comment
text group, the byte block, and the instruction text. -/
def findMatch : List Char → Option (List Char × List Char × List Char × List Char)
  | [] => none
  | c :: cs =>
    match tryAt (c :: cs) with
    | some (g, B, t) => some ([], g, B, t)
    | none =>
      match findMatch cs with
      | some (p, g, B, t) => some (c :: p, g, B, t)
      | none => none

/-- Reverse the four byte pairs of the eight-character block (`\5\4\3\2`). -/
def swapPairs (B : List Char) : List Char :=
  (B.drop 6).take 2 ++ (B.drop 4).take 2 ++ (B.drop 2).take 2 ++ B.take 2

/-- The raw-word chunk of the replacement template: the characters of
`".word      0x"` (`.word`, six spaces, `0x`), then the byte-swapped block. -/
def wordChunk (B : List Char) : List Char :=
  '.' :: 'w' :: 'o' :: 'r' :: 'd' :: ' ' :: ' ' :: ' ' :: ' ' :: ' ' :: ' ' ::
    '0' :: 'x' :: swapPairs B

/-- The replacement text `re.sub` writes for one matched line:
the unmatched prefix, the comment reassembled unchanged, two spaces, the raw
word, and the original instruction as a trailing comment. -/
def rewriteLine (p g B t : List Char) : List Char :=
  p ++ ['/', '*', ' '] ++ g ++ [' '] ++ B ++ [' ', '*', '/', ' ', ' '] ++
    wordChunk B ++ [' ', '/', '*', ' '] ++ t ++ [' ', '*', '/']

/-- Substitute the pattern on one line. -/
def patchLine (l : List Char) : List Char :=
  match findMatch l with
  | none => l
  | some (p, g, B, t) => rewriteLine p g B t

def splitNl (c : List Char) : List (List Char) := splitOnChar '\n' c

def joinNl (ls : List (List Char)) : List Char := joinChar '\n' ls

/-- `re.sub(OPCODE_PATTERN, ..., content)`, acting line by line (see above). -/
def patchContent (c : List Char) : List Char := joinNl ((splitNl c).map patchLine)

/-- `re.search(OPCODE_PATTERN, content)` as a Boolean. -/
def hasMatch (c : List Char) : Bool := (splitNl c).any (fun l => (findMatch l).isSome)

/-- The allow-list of affected functions (`PROBLEMATIC_FUNCS`; the Python
`set` of the literal list — one name occurs twice in the source literal and is
collapsed by the set, which `List.contains` handles the same way). -/
def PROBLEMATIC_FUNCS : List String :=
  ["func_00107760", "func_00107D68", "func_0010E998", "func_0010F568", "func_0012E2B8",
   "func_00139190", "func_00142470", "func_0014A398", "func_0010E998", "func_00123CA8",
   "func_00125270", "func_00144DC8", "func_0014D1B0", "func_0016BFD8", "func_00189A18",
   "func_0018FE80", "func_0017DC70", "func_00185878", "func_001A2608", "func_001A2BA8",
   "func_001ABCA8", "func_001AC560", "func_001ADA80", "func_001C7BA8", "func_001D43F0",
   "func_001D4498", "func_001DF858", "func_001DFBB0", "func_001E1D30", "func_001E7780",
   "func_001FEC88", "func_0022CF80", "func_00240A08", "func_00245AE8", "func_00278098",
   "func_0027C640", "func_0027D240", "func_0027EC50", "func_0028D6A8", "func_0028E4A0",
   "func_0028EC20", "func_0029A198", "func_002AA498", "func_002AA978", "func_002AADF8",
   "func_002AB278", "func_002AB778", "func_002ABAE8", "func_002AF090", "func_002B1F40",
   "func_002B71E8", "func_002B9288", "func_002B9688", "func_002C0460", "func_002CA090",
   "func_002F7A78", "func_002FC9B0", "func_0030A4C8", "func_00318BF8", "func_00319C28",
   "func_00327B78", "func_0032A680", "func_003326C0", "func_00333810", "func_00337B00",
   "func_00339120", "func_00339E68", "func_002FA958", "func_003120D0", "func_003374B0",
   "func_0033C5F8", "func_002FC288", "func_00302ED0", "func_00310370", "func_0033F640",
   "func_00303590", "func_0030BB10", "func_0030D8B8", "func_0031D298", "func_0032F0E0",
   "func_00335A80", "func_00335B84", "func_0034C230", "func_0030EC70", "func_00335258",
   "func_00336F9C", "func_0033739C", "func_0033B610", "func_00344A50"]

/-- One `*.s` file found by `nm_folder.rglob("*.s")` under the
`nonmatchings` subtree: its base name (the function identifier) and its text. -/
structure AsmFile where
  stem : String
  content : List Char
deriving DecidableEq, Repr

/-- The per-file body of `replace_instructions_with_opcodes`: skip files whose
stem is not allow-listed; otherwise substitute and write back only when
`re.search` found the pattern. -/
def patchFile (f : AsmFile) : AsmFile :=
  if PROBLEMATIC_FUNCS.contains f.stem then
    if hasMatch f.content then { f with content := patchContent f.content } else f
  else f

/-- `replace_instructions_with_opcodes`, over the files enumerated beneath the
`nonmatchings` subtree. -/
def replace_instructions_with_opcodes (files : List AsmFile) : List AsmFile :=
  files.map patchFile

/-- Number of occurrences of the two-character sequence `*/` in a line (the
sequence cannot overlap itself, so counting by sliding window is exact). -/
def countSS : List Char → Nat
  | [] => 0
  | c :: t => (if c = '*' ∧ t.head? = some '/' then 1 else 0) + countSS t

/-- The boundary correction when counting `*/` occurrences across an append:
one extra occurrence iff the left part ends in `*` and the right part starts
with `/`. -/
def bnd (u v : List Char) : Nat :=
  if u.getLast? = some '*' ∧ v.head? = some '/' then 1 else 0

/-- A decomposition of a line as one `OPCODE_PATTERN` match: `l` is the
unmatched prefix `p`, then `/* `, the comment text `g` (nonempty), a space,
the eight-character byte block `B` of `[0-9A-Z]` characters, ` */`, two
spaces, and a branch instruction `t` reaching the end of the line. -/
def IsSplit (l p g B t : List Char) : Prop :=
  l = p ++ ['/', '*', ' '] ++ g ++ [' '] ++ B ++ [' ', '*', '/', ' ', ' '] ++ t ∧
    g ≠ [] ∧ B.length = 8 ∧ B.all isHexUp = true ∧ insOk t = true

/-! ### Closed forms of the per-entry `built_objects` growth -/

/-- The `built_objects` additions one entry causes in normal mode. -/
def objsAddNormal (e : Entry) (objs : List String) : List String :=
  match buildableTask e with
  | some (op, _) => if pathSuffix op = ".o" then addObj objs op else objs
  | none => objs

/-- The `built_objects` additions one entry causes in diff mode: first the
instrumented path, then the original path. -/
def objsAddDiff (e : Entry) (objs : List String) : List String :=
  match buildableTask e with
  | some (op, _) =>
    let o1 := if pathSuffix (rewriteOut TARGET_DIR op) = ".o"
              then addObj objs (rewriteOut TARGET_DIR op) else objs
    if pathSuffix op = ".o" then addObj o1 op else o1
  | none => objs

/-- A node with its implicit-dependency list erased, for stating equality of
runs up to the link node's implicit order. -/
def stripImplicit (n : Node) : Node :=
  { n with implicit := [] }

/-! ### The spec-side path rule of claim C5 -/

/-- Replace the first component equal to `sentinel` by `root`. -/
def replaceFirstIn (sentinel root : String) : List String → List String
  | [] => []
  | p :: ps => if p = sentinel then root :: ps else p :: replaceFirstIn sentinel root ps

/-- Modelled from the spec's words for claim C5 (not from the source): the
instrumented output path is "computed by replacing the final path segment that
exactly equals a sentinel directory name with that root", leaving every other
path segment unchanged; with no such segment the path is unchanged. -/
def specC5InstrumentedPath (sentinel root p : String) : String :=
  joinParts ((replaceFirstIn sentinel root (pathParts p).reverse).reverse)

/-! ### Concrete fixtures for counterexamples and witnesses -/

def fsEmpty : FS := ⟨[]⟩

/-- Two segments whose declared output paths collide (claim C1). -/
def c1Entries : List Entry :=
  [⟨.cSeg, some "build/a.c.o", ["src/a.c"]⟩, ⟨.cSeg, some "build/a.c.o", ["src/b.c"]⟩]

/-- What the normal-mode run on `c1Entries` emits. -/
def c1Run : RunOut :=
  { nodes := [⟨["build/a.c.o"], "cc", ["src/a.c"], [], [], []⟩,
              ⟨["build/a.c.o"], "cc", ["src/b.c"], [], [], []⟩,
              ⟨["build/SCES_512.48.elf"], "ld", ["linkers/SCES_512.48.ld"],
                [("mapfile", "build/SCES_512.48.map")], ["build/a.c.o"], []⟩,
              ⟨["build/SCES_512.48"], "elf", ["build/SCES_512.48.elf"], [], [], []⟩,
              ⟨["build/SCES_512.48.ok"], "sha1sum", ["configs/checksum.sha1"], [],
                ["build/SCES_512.48"], []⟩],
    units := [], objs := ["build/a.c.o"], manifest := none }

/-- A segment with an unrecognized kind tag and no declared output path
(claim C4). -/
def c4Entry : Entry := ⟨.unknown "weird", none, []⟩

/-- The trailing nodes of a normal run with no buildable segment. -/
def c4Run : RunOut :=
  { nodes := [⟨["build/SCES_512.48.elf"], "ld", ["linkers/SCES_512.48.ld"],
                [("mapfile", "build/SCES_512.48.map")], [], []⟩,
              ⟨["build/SCES_512.48"], "elf", ["build/SCES_512.48.elf"], [], [], []⟩,
              ⟨["build/SCES_512.48.ok"], "sha1sum", ["configs/checksum.sha1"], [],
                ["build/SCES_512.48"], []⟩],
    units := [], objs := [], manifest := none }

/-- A C segment with a nested declared output path (claim C5). -/
def c5Entry : Entry := ⟨.cSeg, some "build/src/sub/foo.c.o", ["src/sub/foo.c"]⟩

def c5FS : FS := ⟨["foo.c"]⟩

/-- An assembly segment from the binary-data subtree with no matching
hand-written source file (claim C7). -/
def c7Entry : Entry := ⟨.asmSeg, some "build/asm/data/bar.s.o", ["asm/data/bar.s"]⟩

def c5Units : List UnitRec :=
  [{ name := "sub/foo", base_path := "build/obj/src/foo.o",
     target_path := "target/foo.o", categories := ["game"] }]

/-- What the diff-mode run on `[c5Entry]` emits. -/
def c5Run : RunOut :=
  { nodes := [⟨["target/foo.o"], "cc", ["src/sub/foo.c"], [], [], []⟩,
              ⟨["build/src/sub/foo.c.o"], "cc", ["src/sub/foo.c"],
                [("cflags", "-DSKIP_ASM")], [], []⟩],
    units := c5Units, objs := ["target/foo.o", "build/src/sub/foo.c.o"],
    manifest := some (mkManifest c5Units) }

def c7Units : List UnitRec :=
  [{ name := "data/bar", base_path := "build/asm/data/bar.s.o",
     target_path := "target/bar.o", categories := ["data"] }]

/-- What the diff-mode run on `[c7Entry]` emits. -/
def c7Run : RunOut :=
  { nodes := [⟨["target/bar.o"], "as", ["asm/data/bar.s"], [], [], []⟩,
              ⟨["build/asm/data/bar.s.o"], "as", ["asm/data/bar.s"],
                [("cflags", "-DSKIP_ASM")], [], []⟩],
    units := c7Units, objs := ["target/bar.o", "build/asm/data/bar.s.o"],
    manifest := some (mkManifest c7Units) }

/-- Units recorded as manifest entries carry a singleton category list. -/
def GoodUnit (u : UnitRec) : Prop :=
  u.categories = ["game"] ∨ u.categories = ["data"]

/-- Two segments with distinct object outputs (claim C10). -/
def c10Entries : List Entry :=
  [⟨.cSeg, some "build/a.c.o", ["src/a.c"]⟩, ⟨.cSeg, some "build/b.c.o", ["src/b.c"]⟩]

/-- An allow-listed file containing the spec's spaced-byte-pairs example line
(claim C8). -/
def c8File : AsmFile :=
  ⟨"func_00107760", "/* bne 12 34 56 78 */  bne $a0, $a1, label".toList⟩

/-- An allow-listed file whose single line contains the comment-plus-branch
pattern twice (claim C9). -/
def c9File : AsmFile :=
  ⟨"func_00107D68", "/* x AABBCCDD */  bne foo /* y EEFF0011 */  bne bar".toList⟩

/-- A correctly formatted erratum line: the byte block is eight contiguous
uppercase-hex characters (claim C8 witness). -/
def c8GoodLine : List Char := "/* bne 14A00004 */  bne $a0, $a1, label".toList

/-- An allow-listed file whose single line holds at most one closing comment
delimiter (claim C9 witness). -/
def c9WitnessFile : AsmFile := ⟨"func_0010E998", c8GoodLine⟩

/-- The loop state after a normal-mode pass over `c10Entries`. -/
def c10StN : St :=
  { objs := ["build/a.c.o", "build/b.c.o"], units := [],
    nodes := [⟨["build/a.c.o"], "cc", ["src/a.c"], [], [], []⟩,
              ⟨["build/b.c.o"], "cc", ["src/b.c"], [], [], []⟩] }

/-- The loop state after a diff-mode pass over `c10Entries`. -/
def c10StD : St :=
  { objs := ["target/a.o", "build/a.c.o", "target/b.o", "build/b.c.o"],
    units := [{ name := "a", base_path := "build/a.c.o",
                target_path := "target/a.o", categories := ["game"] },
              { name := "b", base_path := "build/b.c.o",
                target_path := "target/b.o", categories := ["game"] }],
    nodes := [⟨["target/a.o"], "cc", ["src/a.c"], [], [], []⟩,
              ⟨["build/a.c.o"], "cc", ["src/a.c"], [("cflags", "-DSKIP_ASM")], [], []⟩,
              ⟨["target/b.o"], "cc", ["src/b.c"], [], [], []⟩,
              ⟨["build/b.c.o"], "cc", ["src/b.c"], [("cflags", "-DSKIP_ASM")], [], []⟩] }

/-! ## Lemmas about the segment loop -/

section GraphLemmas

attribute [local irreducible] pathSuffix rewriteOut extSplit strContains

theorem buildE_plain_eq (fs : FS) (st : St) (op : String) (srcs : List String)
    (t flags : String) :
    buildE fs st op srcs t none flags false =
      .ok { objs := if pathSuffix op = ".o" then addObj st.objs op else st.objs,
            units := st.units, nodes := st.nodes ++ [mkNode op srcs t flags] } := by
  rfl

theorem buildE_collect_eq (fs : FS) (st : St) (op : String) (srcs : List String)
    (t : String) (us : List UnitRec)
    (hus : collectUnit fs (rewriteOut TARGET_DIR op) op srcs = .ok us) :
    buildE fs st op srcs t (some TARGET_DIR) "" true =
      .ok { objs := if pathSuffix (rewriteOut TARGET_DIR op) = ".o"
                    then addObj st.objs (rewriteOut TARGET_DIR op) else st.objs,
            units := st.units ++ us,
            nodes := st.nodes ++ [mkNode (rewriteOut TARGET_DIR op) srcs t ""] } := by
  unfold buildE
  simp only [hus]
  rfl

theorem processEntry_normal_eq (fs : FS) (st : St) (e : Entry) (hp : Processable e) :
    processEntry fs false st e =
      .ok { objs := objsAddNormal e st.objs, units := st.units,
            nodes := st.nodes ++ emitNormal e } := by
  cases hv : e.kind.isVirt with
  | true => simp [processEntry, hv, emitNormal, buildableTask, objsAddNormal]
  | false =>
    cases hop : e.objectPath with
    | none =>
      simp [processEntry, hv, hop, emitNormal, buildableTask, objsAddNormal]
    | some op =>
      cases ht : e.kind.taskOf with
      | none =>
        exfalso
        rcases hp with h | h | h
        · exact absurd (hv ▸ h) (by simp)
        · simp [hop] at h
        · exact h ht
      | some t =>
        have hbt : buildableTask e = some (op, t) := by
          simp [buildableTask, hv, hop, ht]
        have hemit : emitNormal e = [mkNode op e.srcPaths t ""] := by
          simp only [emitNormal, hbt]
        have hoan : objsAddNormal e st.objs =
            (if pathSuffix op = ".o" then addObj st.objs op else st.objs) := by
          simp only [objsAddNormal, hbt]
        rw [hemit, hoan]
        simp only [processEntry, hv, hop, ht]
        rw [buildE_plain_eq fs st op e.srcPaths t ""]

theorem processEntry_diff_eq (fs : FS) (st : St) (e : Entry) (hp : Processable e)
    (hd : DiffSafe fs e) :
    processEntry fs true st e =
      .ok { objs := objsAddDiff e st.objs, units := st.units ++ unitsForE fs e,
            nodes := st.nodes ++ emitDiff e } := by
  cases hv : e.kind.isVirt with
  | true =>
    simp [processEntry, hv, emitDiff, buildableTask, objsAddDiff, unitsForE]
  | false =>
    cases hop : e.objectPath with
    | none =>
      simp [processEntry, hv, hop, emitDiff, buildableTask, objsAddDiff, unitsForE]
    | some op =>
      cases ht : e.kind.taskOf with
      | none =>
        exfalso
        rcases hp with h | h | h
        · exact absurd (hv ▸ h) (by simp)
        · simp [hop] at h
        · exact h ht
      | some t =>
        have hbt : buildableTask e = some (op, t) := by
          simp [buildableTask, hv, hop, ht]
        obtain ⟨us, hus⟩ := hd op t hbt
        have hfor : unitsForE fs e = us := by
          simp only [unitsForE, hbt, hus]
        have hemit : emitDiff e = [mkNode (rewriteOut TARGET_DIR op) e.srcPaths t "",
            mkNode op e.srcPaths t "-DSKIP_ASM"] := by
          simp only [emitDiff, hbt]
        have hoad : objsAddDiff e st.objs =
            (if pathSuffix op = ".o"
             then addObj (if pathSuffix (rewriteOut TARGET_DIR op) = ".o"
                          then addObj st.objs (rewriteOut TARGET_DIR op) else st.objs) op
             else if pathSuffix (rewriteOut TARGET_DIR op) = ".o"
                  then addObj st.objs (rewriteOut TARGET_DIR op) else st.objs) := by
          simp only [objsAddDiff, hbt]
        rw [hfor, hemit, hoad]
        simp only [processEntry, hv, hop, ht,
          buildE_collect_eq fs st op e.srcPaths t us hus]
        rw [buildE_plain_eq fs _ op e.srcPaths t "-DSKIP_ASM"]
        refine congrArg Except.ok ?_
        rw [St.mk.injEq]
        exact ⟨rfl, rfl, List.append_assoc _ _ _⟩

theorem processEntries_append (fs : FS) (dual : Bool) :
    ∀ (as bs : List Entry) (st : St),
      processEntries fs dual st (as ++ bs) =
        match processEntries fs dual st as with
        | .error m => .error m
        | .ok st' => processEntries fs dual st' bs := by
  intro as
  induction as with
  | nil => intro bs st; simp [processEntries]
  | cons e as ih =>
    intro bs st
    simp only [List.cons_append, processEntries]
    cases processEntry fs dual st e with
    | error m => rfl
    | ok st' => exact ih bs st'

theorem processEntries_normal_eq (fs : FS) :
    ∀ (es : List Entry) (st : St), (∀ e ∈ es, Processable e) →
      processEntries fs false st es =
        .ok { objs := es.foldl (fun o e => objsAddNormal e o) st.objs,
              units := st.units,
              nodes := st.nodes ++ (es.map emitNormal).flatten } := by
  intro es
  induction es with
  | nil => intro st _; simp [processEntries]
  | cons e es ih =>
    intro st h
    have he : Processable e := h e (by simp)
    simp only [processEntries, processEntry_normal_eq fs st e he]
    rw [ih _ (fun x hx => h x (by simp [hx]))]
    simp [List.append_assoc]

theorem processEntries_diff_eq (fs : FS) :
    ∀ (es : List Entry) (st : St), (∀ e ∈ es, Processable e) →
      (∀ e ∈ es, DiffSafe fs e) →
      processEntries fs true st es =
        .ok { objs := es.foldl (fun o e => objsAddDiff e o) st.objs,
              units := st.units ++ (es.map (unitsForE fs)).flatten,
              nodes := st.nodes ++ (es.map emitDiff).flatten } := by
  intro es
  induction es with
  | nil => intro st _ _; simp [processEntries]
  | cons e es ih =>
    intro st h hd
    have he : Processable e := h e (by simp)
    have hde : DiffSafe fs e := hd e (by simp)
    simp only [processEntries, processEntry_diff_eq fs st e he hde]
    rw [ih _ (fun x hx => h x (by simp [hx])) (fun x hx => hd x (by simp [hx]))]
    simp [List.append_assoc]

theorem diffSafe_of_b (fs : FS) (e : Entry) (h : diffSafeB fs e = true) : DiffSafe fs e := by
  intro op t hbt
  unfold diffSafeB at h
  rw [hbt] at h
  simp only [] at h
  cases hc : collectUnit fs (rewriteOut TARGET_DIR op) op e.srcPaths with
  | ok us => exact ⟨us, rfl⟩
  | error m => rw [hc] at h; simp at h

theorem allDiffSafe (fs : FS) (es : List Entry) (h : es.all (diffSafeB fs) = true) :
    ∀ e ∈ es, DiffSafe fs e :=
  fun e he => diffSafe_of_b fs e (List.all_eq_true.mp h e he)

/-- Full characterization of a unit recorded by `collectUnit`. -/
theorem collectUnit_ok_unit (fs : FS) (np op' s : String) (rest : List String)
    (us : List UnitRec) (h : collectUnit fs np op' (s :: rest) = .ok us) :
    ∀ u ∈ us,
      u.target_path = np ∧
      GoodUnit u ∧
      (u.categories = ["game"] ↔ strContains s "src/" = true) ∧
      (u.categories = ["data"] ↔
        (strContains s "src/" = false ∧ strContains s "asm/data" = true)) ∧
      (hasRealSrc fs s = true →
        u.base_path = joinParts (replaceFirstTarget (pathParts np))) ∧
      (hasRealSrc fs s = false → u.base_path = op') := by
  intro u hu
  by_cases h1 : strContains np "target" = true
  · by_cases h2 : strContains s "src/" = true
    · simp only [collectUnit, h1, h2, if_true] at h
      simp at h
      subst h
      simp at hu
      subst hu
      by_cases h4 : hasRealSrc fs s = true
      · simp [GoodUnit, h2, h4]
      · simp [GoodUnit, h2, h4]
    · by_cases h3 : strContains s "asm/data" = true
      · simp only [collectUnit, h1, if_true] at h
        rw [if_neg (by simp [h2]), if_pos h3] at h
        simp at h
        subst h
        simp at hu
        subst hu
        by_cases h4 : hasRealSrc fs s = true
        · simp [GoodUnit, h2, h3, h4]
        · simp [GoodUnit, h2, h3, h4]
      · exfalso
        simp only [collectUnit, h1, if_true] at h
        rw [if_neg (by simp [h2]), if_neg (by simp [h3])] at h
        simp at h
  · simp only [collectUnit] at h
    rw [if_neg (by simp [h1])] at h
    simp at h
    subst h
    simp at hu

theorem collectUnit_good (fs : FS) (np op' : String) (sps : List String)
    (us : List UnitRec) (h : collectUnit fs np op' sps = .ok us) :
    ∀ u ∈ us, GoodUnit u := by
  cases sps with
  | nil =>
    unfold collectUnit at h
    by_cases h1 : strContains np "target" = true
    · rw [if_pos h1] at h; simp at h
    · rw [if_neg h1] at h
      simp at h
      subst h
      intro u hu
      simp at hu
  | cons s rest =>
    intro u hu
    exact ((collectUnit_ok_unit fs np op' s rest us h u hu).2).1

/-- `buildE` only ever appends `collectUnit`-produced records to the unit
list. -/
theorem buildE_good (fs : FS) (st : St) (op' : String) (srcs : List String)
    (t : String) (od : Option String) (fl : String) (coll : Bool) (st' : St)
    (h : buildE fs st op' srcs t od fl coll = .ok st')
    (hst : ∀ u ∈ st.units, GoodUnit u) : ∀ u ∈ st'.units, GoodUnit u := by
  cases coll with
  | false =>
    simp only [buildE, if_neg] at h
    simp at h
    rw [← h]
    exact hst
  | true =>
    cases od with
    | none =>
      simp only [buildE] at h
      cases hc : collectUnit fs op' op' srcs with
      | error m => rw [hc] at h; simp at h
      | ok us =>
        rw [hc] at h
        simp at h
        rw [← h]
        intro u hu
        simp only [List.mem_append] at hu
        rcases hu with hu | hu
        · exact hst u hu
        · exact collectUnit_good fs _ op' srcs us hc u hu
    | some d =>
      simp only [buildE] at h
      cases hc : collectUnit fs (rewriteOut d op') op' srcs with
      | error m => rw [hc] at h; simp at h
      | ok us =>
        rw [hc] at h
        simp at h
        rw [← h]
        intro u hu
        simp only [List.mem_append] at hu
        rcases hu with hu | hu
        · exact hst u hu
        · exact collectUnit_good fs _ op' srcs us hc u hu

theorem processEntry_good (fs : FS) (dual : Bool) (st : St) (e : Entry) (st' : St)
    (h : processEntry fs dual st e = .ok st')
    (hst : ∀ u ∈ st.units, GoodUnit u) : ∀ u ∈ st'.units, GoodUnit u := by
  cases hv : e.kind.isVirt with
  | true =>
    simp only [processEntry, hv] at h
    simp at h; rw [← h]; exact hst
  | false =>
    cases hop : e.objectPath with
    | none =>
      simp only [processEntry, hv, hop] at h
      simp at h; rw [← h]; exact hst
    | some op =>
      cases ht : e.kind.taskOf with
      | none =>
        cases dual <;> (simp only [processEntry, hv, hop, ht] at h; simp at h)
      | some t =>
        cases dual with
        | false =>
          simp only [processEntry, hv, hop, ht] at h
          exact buildE_good _ _ _ _ _ _ _ _ _ h hst
        | true =>
          simp only [processEntry, hv, hop, ht] at h
          cases hb : buildE fs st op e.srcPaths t (some TARGET_DIR) "" true with
          | error m => rw [hb] at h; simp at h
          | ok st1 =>
            rw [hb] at h
            simp only [] at h
            exact buildE_good _ _ _ _ _ _ _ _ _ h
              (buildE_good _ _ _ _ _ _ _ _ _ hb hst)

theorem processEntries_good (fs : FS) (dual : Bool) :
    ∀ (es : List Entry) (st : St) (st' : St),
      processEntries fs dual st es = .ok st' →
      (∀ u ∈ st.units, GoodUnit u) → ∀ u ∈ st'.units, GoodUnit u := by
  intro es
  induction es with
  | nil =>
    intro st st' h hst
    simp only [processEntries] at h
    simp at h
    rw [← h]
    exact hst
  | cons e es ih =>
    intro st st' h hst
    simp only [processEntries] at h
    cases hp : processEntry fs dual st e with
    | error m => rw [hp] at h; simp at h
    | ok st1 =>
      rw [hp] at h
      exact ih st1 st' h (processEntry_good fs dual st e st1 hp hst)

/-! ## Claim theorems on the build-graph emitter -/

/-- C2: For every segment with a recognized buildable kind and a non-empty
output path, exactly one build-graph node carrying that segment's output path
and input paths is emitted when diff mode is off, and exactly two nodes — the
instrumented-root node and the original-path node with the extra `-DSKIP_ASM`
macro flag — are emitted when diff mode is on; every such segment is covered,
in segment order (the loop's nodes are exactly the concatenation of the
per-segment node lists, which are singletons and pairs respectively for
buildable segments and empty otherwise). -/
theorem c2_segment_node_counts (fs : FS) (entries : List Entry)
    (hp : ∀ e ∈ entries, Processable e) (hd : ∀ e ∈ entries, DiffSafe fs e) :
    (∃ stN, processEntries fs false ⟨[], [], []⟩ entries = .ok stN ∧
       stN.nodes = (entries.map emitNormal).flatten) ∧
    (∃ stD, processEntries fs true ⟨[], [], []⟩ entries = .ok stD ∧
       stD.nodes = (entries.map emitDiff).flatten) ∧
    (∀ e op t, buildableTask e = some (op, t) →
       emitNormal e = [mkNode op e.srcPaths t ""] ∧
       emitDiff e = [mkNode (rewriteOut TARGET_DIR op) e.srcPaths t "",
                     mkNode op e.srcPaths t "-DSKIP_ASM"]) ∧
    (∀ e, buildableTask e = none → emitNormal e = [] ∧ emitDiff e = []) := by
  refine ⟨⟨_, processEntries_normal_eq fs entries ⟨[], [], []⟩ hp, by simp⟩,
          ⟨_, processEntries_diff_eq fs entries ⟨[], [], []⟩ hp hd, by simp⟩, ?_, ?_⟩
  · intro e op t hbt
    exact ⟨by simp only [emitNormal, hbt], by simp only [emitDiff, hbt]⟩
  · intro e hbt
    exact ⟨by simp only [emitNormal, hbt], by simp only [emitDiff, hbt]⟩

/-- C3: After the segment loop, normal mode emits exactly the link node (its
explicit input is the linker script, its implicit dependencies are the whole
`built_objects` set, up to set-iteration order), the raw-binary-extraction
node consuming the linked image, and — only when checksum verification is not
disabled — the verification node depending on the extracted binary and the
checksum reference file.  Diff mode emits none of these and serializes the
manifest instead. -/
theorem c3_trailing_nodes (fs : FS) (entries : List Entry) (sc : Bool)
    (ord : List String → List String) (hord : ∀ l, (ord l).Perm l)
    (stN stD : St)
    (hN : processEntries fs false ⟨[], [], []⟩ entries = .ok stN)
    (hD : processEntries fs true ⟨[], [], []⟩ entries = .ok stD) :
    build_stuff fs entries sc false false ord =
      .ok { nodes := stN.nodes ++
              [{ outputs := [PRE_ELF_PATH], rule := "ld", inputs := [LD_PATH],
                 vars := [("mapfile", MAP_PATH)], implicit := ord stN.objs,
                 implicitOutputs := [] },
               { outputs := [ELF_PATH], rule := "elf", inputs := [PRE_ELF_PATH],
                 vars := [], implicit := [], implicitOutputs := [] }] ++
              (if sc then []
               else [{ outputs := [ELF_PATH ++ ".ok"], rule := "sha1sum",
                       inputs := [CONFIG_PATH ++ "/checksum.sha1"], vars := [],
                       implicit := [ELF_PATH], implicitOutputs := [] }]),
            units := stN.units, objs := stN.objs, manifest := none } ∧
    (ord stN.objs).Perm stN.objs ∧
    build_stuff fs entries true true true ord =
      .ok { nodes := stD.nodes, units := stD.units, objs := stD.objs,
            manifest := some (mkManifest stD.units) } := by
  refine ⟨?_, hord _, ?_⟩
  · simp only [build_stuff, hN]
    rfl
  · simp only [build_stuff, hD]
    rfl

/-- C6: Every recorded manifest unit carries exactly one category, `"game"`
(name `Main`) or `"data"` (name `Data`); a unit's category is `"game"` exactly
when the segment's first source path contains `"src/"`, and `"data"` exactly
when it does not but contains `"asm/data"` (a segment matching neither aborts
the run before recording anything, so no recorded unit lacks a category and no
third category is ever produced); the manifest lists exactly the recorded
units with the fixed `game ↦ Main`, `data ↦ Data` category table. -/
theorem c6_manifest_categories (fs : FS) (entries : List Entry)
    (ord : List String → List String) (out : RunOut)
    (h : build_stuff fs entries true true true ord = .ok out) :
    (∀ u ∈ out.units, GoodUnit u) ∧
    (∀ np op' s rest us, collectUnit fs np op' (s :: rest) = .ok us → ∀ u ∈ us,
       (u.categories = ["game"] ↔ strContains s "src/" = true) ∧
       (u.categories = ["data"] ↔
         (strContains s "src/" = false ∧ strContains s "asm/data" = true))) ∧
    out.manifest = some (mkManifest out.units) ∧
    (mkManifest out.units).progress_categories = [("game", "Main"), ("data", "Data")] := by
  have hmain : (∀ u ∈ out.units, GoodUnit u) ∧
      out.manifest = some (mkManifest out.units) := by
    unfold build_stuff at h
    cases hpe : processEntries fs true ⟨[], [], []⟩ entries with
    | error m => rw [hpe] at h; simp at h
    | ok st =>
      rw [hpe] at h
      simp at h
      rw [← h]
      exact ⟨processEntries_good fs true entries ⟨[], [], []⟩ st hpe (by simp), rfl⟩
  refine ⟨hmain.1, ?_, hmain.2, rfl⟩
  intro np op' s rest us hus u hu
  have := collectUnit_ok_unit fs np op' s rest us hus u hu
  exact ⟨this.2.2.1, this.2.2.2.1⟩

/-- C1 (amended): given two segments whose declared output paths collide,
synthesis does NOT abort: it emits one graph node per segment, both carrying
the same output path, and the shared path is entered once into the
`built_objects` set; the run then completes normally.  (The claim's required
configuration-error abort does not exist in the code.) -/
theorem c1_amended_no_abort (fs : FS) (k1 k2 : SegKind) (op : String)
    (s1 s2 : List String) (t1 t2 : String) (sc : Bool)
    (ord : List String → List String)
    (h1 : k1.taskOf = some t1) (h2 : k2.taskOf = some t2)
    (hv1 : k1.isVirt = false) (hv2 : k2.isVirt = false)
    (ho : pathSuffix op = ".o") :
    processEntries fs false ⟨[], [], []⟩ [⟨k1, some op, s1⟩, ⟨k2, some op, s2⟩] =
      .ok { objs := [op], units := [],
            nodes := [mkNode op s1 t1 "", mkNode op s2 t2 ""] } ∧
    ∃ out, build_stuff fs [⟨k1, some op, s1⟩, ⟨k2, some op, s2⟩] sc false false ord =
        .ok out ∧
      out.nodes.take 2 = [mkNode op s1 t1 "", mkNode op s2 t2 ""] ∧
      out.objs = [op] := by
  have hbt1 : buildableTask ⟨k1, some op, s1⟩ = some (op, t1) := by
    simp [buildableTask, hv1, h1]
  have hbt2 : buildableTask ⟨k2, some op, s2⟩ = some (op, t2) := by
    simp [buildableTask, hv2, h2]
  have hp : ∀ x ∈ [(⟨k1, some op, s1⟩ : Entry), ⟨k2, some op, s2⟩], Processable x := by
    intro x hx
    simp only [List.mem_cons, List.mem_singleton] at hx
    rcases hx with hx | hx | hx
    · subst hx; right; right; rw [h1]; simp
    · subst hx; right; right; rw [h2]; simp
    · simp at hx
  have hobj1 : addObj ([] : List String) op = [op] := by
    simp [addObj]
  have hobj2 : addObj [op] op = [op] := by
    simp [addObj]
  have hkey := processEntries_normal_eq fs
    [(⟨k1, some op, s1⟩ : Entry), ⟨k2, some op, s2⟩] ⟨[], [], []⟩ hp
  rw [show ([(⟨k1, some op, s1⟩ : Entry), ⟨k2, some op, s2⟩].foldl
        (fun o e => objsAddNormal e o) ([] : List String)) = [op] by
      simp only [List.foldl, objsAddNormal, hbt1, hbt2, if_pos ho, hobj1, hobj2]] at hkey
  rw [show (([(⟨k1, some op, s1⟩ : Entry), ⟨k2, some op, s2⟩].map emitNormal).flatten) =
        [mkNode op s1 t1 "", mkNode op s2 t2 ""] by
      simp [emitNormal, hbt1, hbt2]] at hkey
  simp only [List.nil_append] at hkey
  refine ⟨hkey, ?_⟩
  refine ⟨_, by simp only [build_stuff, hkey]; rfl, ?_, rfl⟩
  rfl

/-- Dispatch result for a segment with an unrecognized kind tag and a present
object path: the loop aborts with the message naming the kind, in both modes. -/
theorem processEntry_unknown_eq (fs : FS) (dual : Bool) (st : St) (e : Entry)
    (t op : String) (hk : e.kind = .unknown t) (hop : e.objectPath = some op) :
    processEntry fs dual st e =
      .error ("ERROR: Unsupported build segment type " ++ t) := by
  cases dual <;>
    simp [processEntry, hk, hop, SegKind.isVirt, SegKind.taskOf, SegKind.typeTag]

/-- C4 (amended): a segment whose kind tag is not in the recognized closed set
AND whose declared output path is present aborts the run with a message naming
the offending kind, in both normal and diff mode (segments before it must
process cleanly for the run to reach it).  A segment with an unrecognized kind
but NO output path is skipped silently instead — see the counterexample. -/
theorem c4_amended_abort (fs : FS) (pre post : List Entry) (e : Entry)
    (t op : String) (sc : Bool) (ord : List String → List String)
    (hk : e.kind = .unknown t) (hop : e.objectPath = some op)
    (hpre : ∀ x ∈ pre, Processable x) (hpred : ∀ x ∈ pre, DiffSafe fs x) :
    build_stuff fs (pre ++ e :: post) sc false false ord =
      .error ("ERROR: Unsupported build segment type " ++ t) ∧
    build_stuff fs (pre ++ e :: post) true true true ord =
      .error ("ERROR: Unsupported build segment type " ++ t) := by
  constructor
  · unfold build_stuff
    rw [processEntries_append, processEntries_normal_eq fs pre _ hpre]
    simp only [processEntries, processEntry_unknown_eq fs false _ e t op hk hop]
  · unfold build_stuff
    rw [processEntries_append, processEntries_diff_eq fs pre _ hpre hpred]
    simp only [processEntries, processEntry_unknown_eq fs true _ e t op hk hop]

/-- C7 (amended): for every recorded manifest unit, when a `.c` or `.cpp`
source file sharing the unit's stem exists anywhere under the source tree, the
unit's `base_path` is the instrumented output path with the first path segment
exactly equal to `"target"` replaced by `"build/obj/src"` and every other
segment untouched; when NO such file exists, the `base_path` is the segment's
ORIGINAL DECLARED output path (not the instrumented-root path, which is the
unit's `target_path`). -/
theorem c7_amended_base_path (fs : FS) (np op' s : String) (rest : List String)
    (us : List UnitRec) (h : collectUnit fs np op' (s :: rest) = .ok us) :
    (∀ u ∈ us,
      u.target_path = np ∧
      (hasRealSrc fs s = true →
        u.base_path = joinParts (replaceFirstTarget (pathParts np))) ∧
      (hasRealSrc fs s = false → u.base_path = op')) ∧
    (∀ ps qs, "target" ∉ ps →
      replaceFirstTarget (ps ++ "target" :: qs) = ps ++ "build/obj/src" :: qs) := by
  constructor
  · intro u hu
    have := collectUnit_ok_unit fs np op' s rest us h u hu
    exact ⟨this.1, this.2.2.2.2.1, this.2.2.2.2.2⟩
  · intro ps
    induction ps with
    | nil => intro qs _; simp [replaceFirstTarget]
    | cons p ps ih =>
      intro qs hmem
      simp only [List.mem_cons, not_or] at hmem
      have hne : p ≠ "target" := fun hp => hmem.1 hp.symm
      show replaceFirstTarget (p :: (ps ++ "target" :: qs)) =
        p :: (ps ++ "build/obj/src" :: qs)
      simp only [replaceFirstTarget, if_neg hne]
      rw [ih qs hmem.2]

/-- C10 (amended): the manifest-producing diff run is byte-identical across
runs regardless of the set-iteration order; a normal run is deterministic up
to the enumeration order of the link node's implicit dependency list: two runs
with different set orders agree on the units, the `built_objects` contents,
the manifest, and every node with its implicit list erased, and their nodes'
implicit lists are permutations of one another; the two runs also fail
identically. -/
theorem c10_amended_deterministic_up_to_order (fs : FS) (entries : List Entry)
    (sc : Bool) (ord1 ord2 : List String → List String)
    (h1 : ∀ l, (ord1 l).Perm l) (h2 : ∀ l, (ord2 l).Perm l) :
    build_stuff fs entries true true true ord1 =
      build_stuff fs entries true true true ord2 ∧
    (∀ o1 o2, build_stuff fs entries sc false false ord1 = .ok o1 →
       build_stuff fs entries sc false false ord2 = .ok o2 →
       o1.units = o2.units ∧ o1.objs = o2.objs ∧ o1.manifest = o2.manifest ∧
       o1.nodes.map stripImplicit = o2.nodes.map stripImplicit ∧
       List.Forall₂ (fun n1 n2 => n1.implicit.Perm n2.implicit) o1.nodes o2.nodes) ∧
    (∀ m, build_stuff fs entries sc false false ord1 = .error m ↔
          build_stuff fs entries sc false false ord2 = .error m) := by
  have hforall2 : ∀ (R : Node → Node → Prop) (as bs cs ds : List Node),
      List.Forall₂ R as bs → List.Forall₂ R cs ds → List.Forall₂ R (as ++ cs) (bs ++ ds) := by
    intro R as bs cs ds hab
    induction hab with
    | nil => intro hcd; exact hcd
    | cons hr _ ih => intro hcd; exact List.Forall₂.cons hr (ih hcd)
  refine ⟨?_, ?_, ?_⟩
  · unfold build_stuff
    cases processEntries fs true ⟨[], [], []⟩ entries <;> rfl
  · intro o1 o2 ho1 ho2
    unfold build_stuff at ho1 ho2
    cases hpe : processEntries fs false ⟨[], [], []⟩ entries with
    | error m => rw [hpe] at ho1; simp at ho1
    | ok st =>
      rw [hpe] at ho1 ho2
      simp at ho1 ho2
      rw [← ho1, ← ho2]
      refine ⟨rfl, rfl, rfl, by simp [stripImplicit], ?_⟩
      refine hforall2 _ _ _ _ _
        (List.forall₂_same.mpr (fun x _ => List.Perm.refl _)) ?_
      refine hforall2 _ _ _ _ _
        (List.Forall₂.cons ((h1 st.objs).trans (h2 st.objs).symm)
          (List.Forall₂.cons (List.Perm.refl _) List.Forall₂.nil)) ?_
      cases sc with
      | true => exact List.Forall₂.nil
      | false => exact List.Forall₂.cons (List.Perm.refl _) List.Forall₂.nil
  · intro m
    unfold build_stuff
    cases processEntries fs false ⟨[], [], []⟩ entries with
    | error m' => exact Iff.rfl
    | ok st => simp

end GraphLemmas

/-- C5 (amended): in diff mode the instrumented node's output path is computed
by DISCARDING every directory component of the declared output path and
joining the instrumented output root `target` with the declared file name's
stem (a trailing `.s`/`.c` inner extension being stripped too) plus `.o`;
no comparison against a sentinel directory name is involved. -/
theorem c5_amended_instrumented_path (e : Entry) (op t : String)
    (hbt : buildableTask e = some (op, t)) (ds : List String) (n : String)
    (hparts : pathParts op = ds ++ [n]) :
    emitDiff e = [mkNode (rewriteOut TARGET_DIR op) e.srcPaths t "",
                  mkNode op e.srcPaths t "-DSKIP_ASM"] ∧
    rewriteOut TARGET_DIR op = TARGET_DIR ++ "/" ++ objStem n ++ ".o" := by
  refine ⟨by simp only [emitDiff, hbt], ?_⟩
  have hfn : fileName op = n := by
    rw [fileName, hparts]
    simp [List.getLastD_eq_getLast?]
  simp only [rewriteOut, hfn]

/-! ## Counterexamples and witnesses -/

/-- C1 (counterexample): `c1Entries` declares the same output path twice, yet
normal-mode synthesis completes without a configuration error, emitting TWO
graph nodes with that output path (the path is entered once into the
`built_objects` set). -/
theorem c1_counterexample :
    build_stuff fsEmpty c1Entries false false false id = .ok c1Run ∧
    c1Run.nodes.countP (fun n => n.outputs = ["build/a.c.o"]) = 2 ∧
    c1Run.objs = ["build/a.c.o"] := by decide

/-- C1 (witness): the amended theorem applied to the colliding pair. -/
theorem c1_witness :
    processEntries fsEmpty false ⟨[], [], []⟩ c1Entries =
      .ok { objs := ["build/a.c.o"], units := [],
            nodes := [mkNode "build/a.c.o" ["src/a.c"] "cc" "",
                      mkNode "build/a.c.o" ["src/b.c"] "cc" ""] } ∧
    ∃ out, build_stuff fsEmpty c1Entries false false false id = .ok out ∧
      out.nodes.take 2 = [mkNode "build/a.c.o" ["src/a.c"] "cc" "",
                          mkNode "build/a.c.o" ["src/b.c"] "cc" ""] ∧
      out.objs = ["build/a.c.o"] :=
  c1_amended_no_abort fsEmpty .cSeg .cSeg "build/a.c.o" ["src/a.c"] ["src/b.c"]
    "cc" "cc" false id rfl rfl rfl rfl (by decide)

/-- C2 (witness): the node-count theorem applied to two concrete segments. -/
theorem c2_witness :
    (∃ stN, processEntries fsEmpty false ⟨[], [], []⟩ c10Entries = .ok stN ∧
       stN.nodes = (c10Entries.map emitNormal).flatten) ∧
    (∃ stD, processEntries fsEmpty true ⟨[], [], []⟩ c10Entries = .ok stD ∧
       stD.nodes = (c10Entries.map emitDiff).flatten) ∧
    (∀ e op t, buildableTask e = some (op, t) →
       emitNormal e = [mkNode op e.srcPaths t ""] ∧
       emitDiff e = [mkNode (rewriteOut TARGET_DIR op) e.srcPaths t "",
                     mkNode op e.srcPaths t "-DSKIP_ASM"]) ∧
    (∀ e, buildableTask e = none → emitNormal e = [] ∧ emitDiff e = []) :=
  c2_segment_node_counts fsEmpty c10Entries (by decide)
    (allDiffSafe fsEmpty c10Entries (by decide))

/-- C3 (witness): the trailing-node theorem applied to two concrete segments
with the identity set order. -/
theorem c3_witness :
    build_stuff fsEmpty c10Entries false false false id =
      .ok { nodes := c10StN.nodes ++
              [{ outputs := [PRE_ELF_PATH], rule := "ld", inputs := [LD_PATH],
                 vars := [("mapfile", MAP_PATH)], implicit := id c10StN.objs,
                 implicitOutputs := [] },
               { outputs := [ELF_PATH], rule := "elf", inputs := [PRE_ELF_PATH],
                 vars := [], implicit := [], implicitOutputs := [] }] ++
              (if false then []
               else [{ outputs := [ELF_PATH ++ ".ok"], rule := "sha1sum",
                       inputs := [CONFIG_PATH ++ "/checksum.sha1"], vars := [],
                       implicit := [ELF_PATH], implicitOutputs := [] }]),
            units := c10StN.units, objs := c10StN.objs, manifest := none } ∧
    (id c10StN.objs).Perm c10StN.objs ∧
    build_stuff fsEmpty c10Entries true true true id =
      .ok { nodes := c10StD.nodes, units := c10StD.units, objs := c10StD.objs,
            manifest := some (mkManifest c10StD.units) } :=
  c3_trailing_nodes fsEmpty c10Entries false id (fun l => List.Perm.refl l)
    c10StN c10StD (by decide) (by decide)

/-- C4 (counterexample): a segment with the unrecognized kind tag `weird` but
no declared output path is silently skipped — both the normal and the diff run
complete with exit status zero instead of aborting. -/
theorem c4_counterexample :
    build_stuff fsEmpty [c4Entry] false false false id = .ok c4Run ∧
    build_stuff fsEmpty [c4Entry] true true true id =
      .ok { nodes := [], units := [], objs := [],
            manifest := some (mkManifest []) } := by decide

/-- C4 (witness): the amended abort theorem applied to an unrecognized kind
with a present output path. -/
theorem c4_witness :
    build_stuff fsEmpty [⟨.unknown "weird", some "x.o", []⟩] false false false id =
      .error ("ERROR: Unsupported build segment type " ++ "weird") ∧
    build_stuff fsEmpty [⟨.unknown "weird", some "x.o", []⟩] true true true id =
      .error ("ERROR: Unsupported build segment type " ++ "weird") :=
  c4_amended_abort fsEmpty [] [] ⟨.unknown "weird", some "x.o", []⟩ "weird" "x.o"
    false id rfl rfl (by simp) (by simp)

/-- C5 (counterexample): for the declared output `build/src/sub/foo.c.o` the
diff run's instrumented node writes `target/foo.o`: every directory component
is discarded and the file name itself is rewritten, while the claim's rule —
replace only a path segment exactly equal to the sentinel, leaving all other
segments (and in particular the file name) unchanged — leaves this path
untouched. -/
theorem c5_counterexample :
    build_stuff c5FS [c5Entry] true true true id = .ok c5Run ∧
    c5Run.nodes.map Node.outputs = [["target/foo.o"], ["build/src/sub/foo.c.o"]] ∧
    specC5InstrumentedPath "target" "target" "build/src/sub/foo.c.o"
      = "build/src/sub/foo.c.o" ∧
    ("target/foo.o" : String) ≠ "build/src/sub/foo.c.o" := by decide

/-- C5 (witness): the amended path rule applied to `c5Entry`. -/
theorem c5_witness :
    emitDiff c5Entry =
      [mkNode (rewriteOut TARGET_DIR "build/src/sub/foo.c.o") c5Entry.srcPaths "cc" "",
       mkNode "build/src/sub/foo.c.o" c5Entry.srcPaths "cc" "-DSKIP_ASM"] ∧
    rewriteOut TARGET_DIR "build/src/sub/foo.c.o" =
      TARGET_DIR ++ "/" ++ objStem "foo.c.o" ++ ".o" :=
  c5_amended_instrumented_path c5Entry "build/src/sub/foo.c.o" "cc" (by decide)
    ["build", "src", "sub"] "foo.c.o" (by decide)

/-- C6 (witness): the category theorem applied to a concrete diff run. -/
theorem c6_witness :
    (∀ u ∈ c7Run.units, GoodUnit u) ∧
    (∀ np op' s rest us, collectUnit fsEmpty np op' (s :: rest) = .ok us → ∀ u ∈ us,
       (u.categories = ["game"] ↔ strContains s "src/" = true) ∧
       (u.categories = ["data"] ↔
         (strContains s "src/" = false ∧ strContains s "asm/data" = true))) ∧
    c7Run.manifest = some (mkManifest c7Run.units) ∧
    (mkManifest c7Run.units).progress_categories = [("game", "Main"), ("data", "Data")] :=
  c6_manifest_categories fsEmpty [c7Entry] id c7Run (by decide)

/-- C7 (counterexample): for the binary-data segment `c7Entry` with NO
matching hand-written source file, the recorded unit's `base_path` is the
original declared output `build/asm/data/bar.s.o`, not the instrumented-root
path `target/bar.o` (the unit's `target_path`) the claim requires. -/
theorem c7_counterexample :
    build_stuff fsEmpty [c7Entry] true true true id = .ok c7Run ∧
    c7Run.units.map UnitRec.base_path = ["build/asm/data/bar.s.o"] ∧
    c7Run.units.map UnitRec.target_path = ["target/bar.o"] ∧
    ("build/asm/data/bar.s.o" : String) ≠ "target/bar.o" := by decide

/-- C7 (witness): the amended base-path theorem applied to `c7Entry`'s
collection. -/
theorem c7_witness :
    (∀ u ∈ c7Units,
      u.target_path = "target/bar.o" ∧
      (hasRealSrc fsEmpty "asm/data/bar.s" = true →
        u.base_path = joinParts (replaceFirstTarget (pathParts "target/bar.o"))) ∧
      (hasRealSrc fsEmpty "asm/data/bar.s" = false →
        u.base_path = "build/asm/data/bar.s.o")) ∧
    (∀ ps qs, "target" ∉ ps →
      replaceFirstTarget (ps ++ "target" :: qs) = ps ++ "build/obj/src" :: qs) :=
  c7_amended_base_path fsEmpty "target/bar.o" "build/asm/data/bar.s.o"
    "asm/data/bar.s" [] c7Units (by decide)

/-- C10 (counterexample): the same segment list and filesystem, two runs whose
`built_objects` set enumerates in different orders (as Python's hash-seeded
`set` iteration does across interpreter runs): the emitted documents are NOT
byte-identical — the link node's implicit dependency list differs. -/
theorem c10_counterexample :
    build_stuff fsEmpty c10Entries false false false id ≠
      build_stuff fsEmpty c10Entries false false false List.reverse := by decide

/-- C10 (witness): the determinism-up-to-order theorem applied to the same
pair of runs. -/
theorem c10_witness :
    build_stuff fsEmpty c10Entries true true true id =
      build_stuff fsEmpty c10Entries true true true List.reverse ∧
    (∀ o1 o2, build_stuff fsEmpty c10Entries false false false id = .ok o1 →
       build_stuff fsEmpty c10Entries false false false List.reverse = .ok o2 →
       o1.units = o2.units ∧ o1.objs = o2.objs ∧ o1.manifest = o2.manifest ∧
       o1.nodes.map stripImplicit = o2.nodes.map stripImplicit ∧
       List.Forall₂ (fun n1 n2 => n1.implicit.Perm n2.implicit) o1.nodes o2.nodes) ∧
    (∀ m, build_stuff fsEmpty c10Entries false false false id = .error m ↔
          build_stuff fsEmpty c10Entries false false false List.reverse = .error m) :=
  c10_amended_deterministic_up_to_order fsEmpty c10Entries false id List.reverse
    (fun l => List.Perm.refl l) (fun l => List.reverse_perm l)

/-! ## Lemmas about the erratum patcher -/

theorem countSS_cons (c : Char) (t : List Char) :
    countSS (c :: t) = (if c = '*' ∧ t.head? = some '/' then 1 else 0) + countSS t := rfl

theorem countSS_append (u v : List Char) :
    countSS (u ++ v) = countSS u + countSS v + bnd u v := by
  induction u with
  | nil => simp [countSS, bnd]
  | cons c u ih =>
    rw [List.cons_append, countSS_cons, ih, countSS_cons]
    cases u with
    | nil =>
      cases v with
      | nil => simp [countSS, bnd]
      | cons d v' =>
        by_cases hc : c = '*' <;> by_cases hd : d = '/' <;>
          simp [countSS, bnd, hc, hd] <;> omega
    | cons d u' =>
      have hb : bnd (c :: d :: u') v = bnd (d :: u') v := by
        simp [bnd, List.getLast?_cons_cons]
      rw [hb]
      have hh : ((d :: u') ++ v).head? = (d :: u').head? := rfl
      rw [hh]
      omega

theorem countSS_ss_ge (u v : List Char) : 1 ≤ countSS (u ++ '*' :: '/' :: v) := by
  rw [countSS_append]
  have h : countSS ('*' :: '/' :: v) = 1 + countSS v := by
    rw [countSS_cons, countSS_cons]
    simp
  omega

theorem countSS_cons_zero (c : Char) (t : List Char) (h : countSS (c :: t) = 0) :
    countSS t = 0 ∧ (if c = '*' ∧ t.head? = some '/' then 1 else 0) = 0 := by
  rw [countSS_cons] at h
  omega

/-- A line containing exactly one `*/`, split around it, decomposes uniquely. -/
theorem unique_decomp : ∀ (A : List Char), countSS A = 0 → ∀ (B X Y : List Char),
    countSS B = 0 → A ++ '*' :: '/' :: B = X ++ '*' :: '/' :: Y → X = A ∧ Y = B := by
  intro A
  induction A with
  | nil =>
    intro _ B X Y hB heq
    cases X with
    | nil =>
      simp only [List.nil_append] at heq
      injection heq with _ heq
      injection heq with _ heq
      exact ⟨rfl, heq.symm⟩
    | cons x X' =>
      simp only [List.nil_append, List.cons_append] at heq
      injection heq with hx heq
      cases X' with
      | nil =>
        exfalso
        simp only [List.nil_append] at heq
        injection heq with hcontra _
        exact absurd hcontra (by decide)
      | cons x' X'' =>
        simp only [List.cons_append] at heq
        injection heq with hx' heq
        exfalso
        subst heq
        have hge := countSS_ss_ge X'' Y
        omega
  | cons a A' ih =>
    intro hA B X Y hB heq
    obtain ⟨hA', hba⟩ := countSS_cons_zero a A' hA
    cases X with
    | nil =>
      exfalso
      simp only [List.nil_append, List.cons_append] at heq
      injection heq with ha heq
      cases A' with
      | nil =>
        simp only [List.nil_append] at heq
        injection heq with hcontra _
        exact absurd hcontra (by decide)
      | cons a' A'' =>
        simp only [List.cons_append] at heq
        injection heq with ha' _
        rw [if_pos ⟨ha, by simp [ha']⟩] at hba
        omega
    | cons x X' =>
      simp only [List.cons_append] at heq
      injection heq with hx heq
      obtain ⟨h1, h2⟩ := ih hA' B X' Y hB heq
      exact ⟨by rw [← hx, h1], h2⟩

/-- A line containing exactly two `*/` occurrences decomposes in exactly two
ways. -/
theorem decomp_two : ∀ (A : List Char), countSS A = 0 → ∀ (B C X Y : List Char),
    countSS B = 0 → countSS C = 0 →
    A ++ '*' :: '/' :: (B ++ '*' :: '/' :: C) = X ++ '*' :: '/' :: Y →
    (X = A ∧ Y = B ++ '*' :: '/' :: C) ∨ (X = A ++ '*' :: '/' :: B ∧ Y = C) := by
  intro A
  induction A with
  | nil =>
    intro _ B C X Y hB hC heq
    cases X with
    | nil =>
      left
      simp only [List.nil_append] at heq
      injection heq with _ heq
      injection heq with _ heq
      exact ⟨rfl, heq.symm⟩
    | cons x X' =>
      simp only [List.nil_append, List.cons_append] at heq
      injection heq with hx heq
      cases X' with
      | nil =>
        exfalso
        simp only [List.nil_append] at heq
        injection heq with hcontra _
        exact absurd hcontra (by decide)
      | cons x' X'' =>
        simp only [List.cons_append] at heq
        injection heq with hx' heq
        obtain ⟨h1, h2⟩ := unique_decomp B hB C X'' Y hC heq
        right
        refine ⟨?_, h2⟩
        rw [← hx, ← hx', ← h1]
        rfl
  | cons a A' ih =>
    intro hA B C X Y hB hC heq
    obtain ⟨hA', hba⟩ := countSS_cons_zero a A' hA
    cases X with
    | nil =>
      exfalso
      simp only [List.nil_append, List.cons_append] at heq
      injection heq with ha heq
      cases A' with
      | nil =>
        simp only [List.nil_append] at heq
        injection heq with hcontra _
        exact absurd hcontra (by decide)
      | cons a' A'' =>
        simp only [List.cons_append] at heq
        injection heq with ha' _
        rw [if_pos ⟨ha, by simp [ha']⟩] at hba
        omega
    | cons x X' =>
      simp only [List.cons_append] at heq
      injection heq with hx heq
      rcases ih hA' B C X' Y hB hC heq with ⟨h1, h2⟩ | ⟨h1, h2⟩
      · left; exact ⟨by rw [← hx, h1], h2⟩
      · right
        refine ⟨?_, h2⟩
        rw [← hx, h1]
        rfl

theorem parseTail_sound (v B t : List Char) (h : parseTail v = some (B, t)) :
    v = ' ' :: (B ++ ' ' :: '*' :: '/' :: ' ' :: ' ' :: t) ∧ B.length = 8 ∧
      B.all isHexUp = true ∧ insOk t = true := by
  unfold parseTail at h
  split at h
  case isTrue hcond =>
    obtain ⟨h1, h2, h3, h4, h5⟩ := hcond
    injection h with h
    injection h with hB ht
    subst hB
    subst ht
    refine ⟨?_, h2, h3, h5⟩
    cases v with
    | nil => simp at h1
    | cons c v' =>
      have hc : c = ' ' := by simpa using h1
      subst hc
      have hv' : v' = v'.take 8 ++ v'.drop 8 := (List.take_append_drop 8 v').symm
      have hmid : v'.drop 8 = (v'.drop 8).take 5 ++ (v'.drop 8).drop 5 :=
        (List.take_append_drop 5 (v'.drop 8)).symm
      have h4' : (v'.drop 8).take 5 = [' ', '*', '/', ' ', ' '] := h4
      have hdd : (v'.drop 8).drop 5 = v'.drop 13 := by
        rw [List.drop_drop]
      have hfin : ((' ' :: v').drop 1).take 8 = v'.take 8 := rfl
      have hfin2 : (' ' :: v').drop 14 = v'.drop 13 := rfl
      rw [hfin, hfin2]
      conv_lhs => rw [show (' ' :: v') = ' ' :: (v'.take 8 ++ v'.drop 8) by rw [← hv']]
      rw [hmid, h4', hdd]
      rfl
  case isFalse => exact absurd h (by simp)

theorem parseTail_complete (B t : List Char) (h8 : B.length = 8)
    (hhex : B.all isHexUp = true) (hins : insOk t = true) :
    parseTail (' ' :: (B ++ ' ' :: '*' :: '/' :: ' ' :: ' ' :: t)) = some (B, t) := by
  have hd1 : (' ' :: (B ++ ' ' :: '*' :: '/' :: ' ' :: ' ' :: t)).drop 1 =
      B ++ ' ' :: '*' :: '/' :: ' ' :: ' ' :: t := rfl
  have htake : (B ++ ' ' :: '*' :: '/' :: ' ' :: ' ' :: t).take 8 = B :=
    List.take_left' h8
  have hdrop : (B ++ ' ' :: '*' :: '/' :: ' ' :: ' ' :: t).drop 8 =
      ' ' :: '*' :: '/' :: ' ' :: ' ' :: t :=
    List.drop_left' h8
  have hd9 : (' ' :: (B ++ ' ' :: '*' :: '/' :: ' ' :: ' ' :: t)).drop 9 =
      ' ' :: '*' :: '/' :: ' ' :: ' ' :: t := by
    have : (' ' :: (B ++ ' ' :: '*' :: '/' :: ' ' :: ' ' :: t)).drop 9 =
        (B ++ ' ' :: '*' :: '/' :: ' ' :: ' ' :: t).drop 8 := rfl
    rw [this, hdrop]
  have hd14 : (' ' :: (B ++ ' ' :: '*' :: '/' :: ' ' :: ' ' :: t)).drop 14 = t := by
    have h1 : (' ' :: (B ++ ' ' :: '*' :: '/' :: ' ' :: ' ' :: t)).drop 14 =
        ((' ' :: (B ++ ' ' :: '*' :: '/' :: ' ' :: ' ' :: t)).drop 9).drop 5 := by
      rw [List.drop_drop]
    rw [h1, hd9]
    rfl
  unfold parseTail
  rw [if_pos]
  · rw [hd1, htake, hd14]
  · refine ⟨rfl, ?_, ?_, ?_, ?_⟩
    · rw [hd1, htake]; exact h8
    · rw [hd1, htake]; exact hhex
    · rw [hd9]; rfl
    · rw [hd14]; exact hins

theorem bestAux_sound (u : List Char) : ∀ (n i : Nat) (B t : List Char),
    bestAux u n = some (i, B, t) →
    1 ≤ i ∧ i ≤ n ∧ parseTail (u.drop i) = some (B, t) := by
  intro n
  induction n with
  | zero => intro i B t h; simp [bestAux] at h
  | succ n ih =>
    intro i B t h
    unfold bestAux at h
    cases hp : parseTail (u.drop (n + 1)) with
    | some Bt =>
      rw [hp] at h
      injection h with h
      injection h with hi h
      subst hi
      refine ⟨by omega, by omega, ?_⟩
      rw [hp, ← h]
    | none =>
      rw [hp] at h
      obtain ⟨h1, h2, h3⟩ := ih i B t h
      exact ⟨h1, by omega, h3⟩

theorem bestAux_complete (u : List Char) : ∀ (n i : Nat), 1 ≤ i → i ≤ n →
    (parseTail (u.drop i)).isSome = true → (bestAux u n).isSome = true := by
  intro n
  induction n with
  | zero => intro i h1 h2 _; omega
  | succ n ih =>
    intro i h1 h2 h3
    unfold bestAux
    cases hp : parseTail (u.drop (n + 1)) with
    | some Bt => simp
    | none =>
      rcases Nat.lt_or_ge i (n + 1) with hlt | hge
      · exact ih i h1 (by omega) h3
      · have hi : i = n + 1 := by omega
        rw [hi, hp] at h3
        simp at h3

theorem tryAt_sound (l g B t : List Char) (h : tryAt l = some (g, B, t)) :
    IsSplit l [] g B t := by
  unfold tryAt at h
  split at h
  next u =>
    cases hb : bestSplit u with
    | none => rw [hb] at h; simp at h
    | some iBt =>
      rw [hb] at h
      obtain ⟨i, B', t'⟩ := iBt
      injection h with h
      injection h with hg h
      injection h with hB ht
      subst hg; subst hB; subst ht
      obtain ⟨h1, h2, h3⟩ := bestAux_sound u u.length i B' t' hb
      obtain ⟨hdrop, h8, hhex, hins⟩ := parseTail_sound (u.drop i) B' t' h3
      have hglen : (u.take i).length = i := by
        rw [List.length_take]
        omega
      have hgne : u.take i ≠ [] := by
        intro hcontra
        rw [hcontra] at hglen
        simp at hglen
        omega
      refine ⟨?_, hgne, h8, hhex, hins⟩
      conv_lhs => rw [show u = u.take i ++ u.drop i from (List.take_append_drop i u).symm]
      rw [hdrop]
      simp
  next =>
    exact absurd h (by simp)

theorem findMatch_sound : ∀ (l p g B t : List Char),
    findMatch l = some (p, g, B, t) → IsSplit l p g B t := by
  intro l
  induction l with
  | nil => intro p g B t h; simp [findMatch] at h
  | cons c cs ih =>
    intro p g B t h
    unfold findMatch at h
    cases htry : tryAt (c :: cs) with
    | some gBt =>
      rw [htry] at h
      obtain ⟨g', B', t'⟩ := gBt
      injection h with h
      injection h with hp h
      injection h with hg h
      injection h with hB ht
      subst hp; subst hg; subst hB; subst ht
      exact tryAt_sound _ _ _ _ htry
    | none =>
      rw [htry] at h
      cases hf : findMatch cs with
      | none => rw [hf] at h; simp at h
      | some pgBt =>
        rw [hf] at h
        obtain ⟨p', g', B', t'⟩ := pgBt
        injection h with h
        injection h with hp h
        injection h with hg h
        injection h with hB ht
        subst hg; subst hB; subst ht
        obtain ⟨heq, hgne, h8, hhex, hins⟩ := ih p' g' B' t' hf
        refine ⟨?_, hgne, h8, hhex, hins⟩
        rw [← hp, heq]
        simp

theorem findMatch_complete : ∀ (p l g B t : List Char),
    IsSplit l p g B t → (findMatch l).isSome = true := by
  intro p
  induction p with
  | nil =>
    intro l g B t hsp
    obtain ⟨heq, hgne, h8, hhex, hins⟩ := hsp
    subst heq
    have hnorm : ([] : List Char) ++ ['/', '*', ' '] ++ g ++ [' '] ++ B ++
        [' ', '*', '/', ' ', ' '] ++ t =
        '/' :: '*' :: ' ' :: (g ++ ' ' :: (B ++ ' ' :: '*' :: '/' :: ' ' :: ' ' :: t)) := by
      simp
    rw [hnorm]
    unfold findMatch
    have hps : parseTail ((g ++ ' ' :: (B ++ ' ' :: '*' :: '/' :: ' ' :: ' ' :: t)).drop
        g.length) = some (B, t) := by
      rw [List.drop_left]
      exact parseTail_complete B t h8 hhex hins
    have hglen1 : 1 ≤ g.length := by
      cases g with
      | nil => exact absurd rfl hgne
      | cons _ _ => simp
    have hglen2 : g.length ≤ (g ++ ' ' :: (B ++ ' ' :: '*' :: '/' :: ' ' :: ' ' :: t)).length := by
      rw [List.length_append]
      omega
    have hbest : (bestSplit (g ++ ' ' :: (B ++ ' ' :: '*' :: '/' :: ' ' :: ' ' :: t))).isSome
        = true := by
      unfold bestSplit
      exact bestAux_complete _ _ g.length hglen1 hglen2 (by rw [hps]; rfl)
    unfold tryAt
    cases hb : bestSplit (g ++ ' ' :: (B ++ ' ' :: '*' :: '/' :: ' ' :: ' ' :: t)) with
    | none => rw [hb] at hbest; simp at hbest
    | some iBt =>
      obtain ⟨i, B', t'⟩ := iBt
      simp [hb]
  | cons c p ih =>
    intro l g B t hsp
    obtain ⟨heq, hgne, h8, hhex, hins⟩ := hsp
    have heq2 : l = c :: (p ++ ['/', '*', ' '] ++ g ++ [' '] ++ B ++
        [' ', '*', '/', ' ', ' '] ++ t) := by
      rw [heq]; simp
    subst heq2
    unfold findMatch
    cases htry : tryAt (c :: (p ++ ['/', '*', ' '] ++ g ++ [' '] ++ B ++
        [' ', '*', '/', ' ', ' '] ++ t)) with
    | some gBt => obtain ⟨g', B', t'⟩ := gBt; simp
    | none =>
      have hih := ih (p ++ ['/', '*', ' '] ++ g ++ [' '] ++ B ++
        [' ', '*', '/', ' ', ' '] ++ t) g B t ⟨rfl, hgne, h8, hhex, hins⟩
      cases hf : findMatch (p ++ ['/', '*', ' '] ++ g ++ [' '] ++ B ++
          [' ', '*', '/', ' ', ' '] ++ t) with
      | none => rw [hf] at hih; simp at hih
      | some pgBt => obtain ⟨p', g', B', t'⟩ := pgBt; simp

theorem bnd_zero_right (u v : List Char) (h : v.head? ≠ some '/') : bnd u v = 0 := by
  unfold bnd
  rw [if_neg]
  rintro ⟨_, h2⟩
  exact h h2

theorem bnd_zero_left (u v : List Char) (h : u.getLast? ≠ some '*') : bnd u v = 0 := by
  unfold bnd
  rw [if_neg]
  rintro ⟨h1, _⟩
  exact h h1

theorem hex_head_ne (l : List Char) (h : l.all isHexUp = true) : l.head? ≠ some '/' := by
  cases l with
  | nil => simp
  | cons c t =>
    simp only [List.all_cons, Bool.and_eq_true] at h
    intro hc
    have : c = '/' := by simpa using hc
    subst this
    exact absurd h.1 (by decide)

theorem hex_getLast_ne (l : List Char) (h : l.all isHexUp = true) :
    l.getLast? ≠ some '*' := by
  intro hc
  have hmem : '*' ∈ l := List.mem_of_getLast?_eq_some hc
  have := List.all_eq_true.mp h '*' hmem
  exact absurd this (by decide)

theorem countSS_hex (l : List Char) (h : l.all isHexUp = true) : countSS l = 0 := by
  induction l with
  | nil => rfl
  | cons c t ih =>
    simp only [List.all_cons, Bool.and_eq_true] at h
    rw [countSS_cons]
    have h2 := ih h.2
    have h3 : (if c = '*' ∧ t.head? = some '/' then 1 else 0) = 0 := by
      rw [if_neg]
      rintro ⟨hc, _⟩
      subst hc
      exact absurd h.1 (by decide)
    omega

theorem swapPairs_hex (B : List Char) (h : B.all isHexUp = true) :
    (swapPairs B).all isHexUp = true := by
  rw [List.all_eq_true] at h ⊢
  intro x hx
  apply h
  simp only [swapPairs, List.mem_append] at hx
  rcases hx with ((hx | hx) | hx) | hx <;>
    first
      | exact List.mem_of_mem_drop (List.mem_of_mem_take hx)
      | exact List.mem_of_mem_take hx

/-- Splitting the `countSS` budget of a matched line over its parts: a line
with at most one `*/` that decomposes as a pattern match has none in the
prefix, the comment group or the instruction text, and its prefix does not end
in `*`. -/
theorem isSplit_counts (l p g B t : List Char) (hsp : IsSplit l p g B t)
    (hle : countSS l ≤ 1) :
    countSS p = 0 ∧ countSS g = 0 ∧ countSS t = 0 ∧ p.getLast? ≠ some '*' := by
  obtain ⟨heq, _, h8, hhex, _⟩ := hsp
  subst heq
  rw [countSS_append, countSS_append, countSS_append, countSS_append,
    countSS_append] at hle
  have e1 : bnd (p ++ ['/', '*', ' '] ++ g ++ [' '] ++ B ++ [' ', '*', '/', ' ', ' ']) t
      = 0 := by
    apply bnd_zero_left
    rw [List.getLast?_append]
    simp
  have e2 : countSS ([' ', '*', '/', ' ', ' '] : List Char) = 1 := by decide
  have e3 : bnd (p ++ ['/', '*', ' '] ++ g ++ [' '] ++ B) [' ', '*', '/', ' ', ' '] = 0 := by
    apply bnd_zero_right
    simp
  have e4 : countSS B = 0 := countSS_hex B hhex
  have e5 : bnd (p ++ ['/', '*', ' '] ++ g ++ [' ']) B = 0 :=
    bnd_zero_right _ _ (hex_head_ne B hhex)
  have e6 : countSS ([' '] : List Char) = 0 := by decide
  have e7 : bnd (p ++ ['/', '*', ' '] ++ g) [' '] = 0 := by
    apply bnd_zero_right
    simp
  have e8 : bnd (p ++ ['/', '*', ' ']) g = 0 := by
    apply bnd_zero_left
    rw [List.getLast?_append]
    simp
  have e9 : countSS (['/', '*', ' '] : List Char) = 0 := by decide
  rw [countSS_append] at hle
  have e10 : (0 : Nat) ≤ bnd p ['/', '*', ' '] := Nat.zero_le _
  refine ⟨by omega, by omega, by omega, ?_⟩
  have hb : bnd p ['/', '*', ' '] = 0 := by omega
  intro hcontra
  unfold bnd at hb
  rw [if_pos ⟨hcontra, rfl⟩] at hb
  omega

/-- The rewritten line, regrouped around its two `*/` occurrences. -/
theorem rewrite_decomp (p g B t : List Char) :
    rewriteLine p g B t =
      (p ++ ['/', '*', ' '] ++ g ++ [' '] ++ B ++ [' ']) ++ '*' :: '/' ::
        (([' ', ' '] ++ wordChunk B ++ [' ', '/', '*', ' '] ++ t ++ [' ']) ++
          '*' :: '/' :: []) := by
  simp [rewriteLine, List.append_assoc]

theorem insOk_dot (r : List Char) : insOk ('.' :: r) = false := by
  unfold insOk
  rw [List.takeWhile_cons]
  rw [if_neg (by decide)]
  decide

theorem insOk_wordChunk (B X : List Char) : insOk (wordChunk B ++ X) = false :=
  insOk_dot _

theorem countSS_A_zero (p g B : List Char) (hp : countSS p = 0) (hg : countSS g = 0)
    (hhex : B.all isHexUp = true) (hlast : p.getLast? ≠ some '*') :
    countSS (p ++ ['/', '*', ' '] ++ g ++ [' '] ++ B ++ [' ']) = 0 := by
  rw [countSS_append, countSS_append, countSS_append, countSS_append]
  have e1 : bnd (p ++ ['/', '*', ' '] ++ g ++ [' '] ++ B) [' '] = 0 := by
    apply bnd_zero_right
    simp
  have e2 : bnd (p ++ ['/', '*', ' '] ++ g ++ [' ']) B = 0 :=
    bnd_zero_right _ _ (hex_head_ne B hhex)
  have e3 : countSS B = 0 := countSS_hex B hhex
  have e4 : bnd (p ++ ['/', '*', ' '] ++ g) [' '] = 0 := by
    apply bnd_zero_right
    simp
  have e5 : bnd (p ++ ['/', '*', ' ']) g = 0 := by
    apply bnd_zero_left
    rw [List.getLast?_append]
    simp
  rw [countSS_append]
  have e6 : bnd p ['/', '*', ' '] = 0 := bnd_zero_left _ _ hlast
  have e7 : countSS (['/', '*', ' '] : List Char) = 0 := by decide
  have e8 : countSS ([' '] : List Char) = 0 := by decide
  omega

theorem countSS_wordChunk (B : List Char) (hhex : B.all isHexUp = true) :
    countSS (wordChunk B) = 0 := by
  have hsplit : wordChunk B =
      ['.', 'w', 'o', 'r', 'd', ' ', ' ', ' ', ' ', ' ', ' ', '0', 'x'] ++ swapPairs B :=
    rfl
  rw [hsplit, countSS_append]
  have e1 : countSS (['.', 'w', 'o', 'r', 'd', ' ', ' ', ' ', ' ', ' ', ' ', '0', 'x'] :
      List Char) = 0 := by decide
  have e2 : countSS (swapPairs B) = 0 := countSS_hex _ (swapPairs_hex B hhex)
  have e3 : bnd (['.', 'w', 'o', 'r', 'd', ' ', ' ', ' ', ' ', ' ', ' ', '0', 'x'] :
      List Char) (swapPairs B) = 0 := by
    apply bnd_zero_left
    decide
  omega

theorem countSS_Bmu_zero (B t : List Char) (ht : countSS t = 0)
    (hhex : B.all isHexUp = true) :
    countSS ([' ', ' '] ++ wordChunk B ++ [' ', '/', '*', ' '] ++ t ++ [' ']) = 0 := by
  rw [countSS_append, countSS_append, countSS_append, countSS_append]
  have e1 : bnd ([' ', ' '] ++ wordChunk B ++ [' ', '/', '*', ' '] ++ t) [' '] = 0 := by
    apply bnd_zero_right
    simp
  have e2 : bnd ([' ', ' '] ++ wordChunk B ++ [' ', '/', '*', ' ']) t = 0 := by
    apply bnd_zero_left
    rw [List.getLast?_append]
    simp
  have e3 : bnd ([' ', ' '] ++ wordChunk B) [' ', '/', '*', ' '] = 0 := by
    apply bnd_zero_right
    simp
  have e4 : countSS (wordChunk B) = 0 := countSS_wordChunk B hhex
  have e5 : bnd [' ', ' '] (wordChunk B) = 0 := by
    apply bnd_zero_right
    intro hcontra
    rw [show (wordChunk B).head? = some '.' from rfl] at hcontra
    simp at hcontra
  have e6 : countSS ([' ', ' '] : List Char) = 0 := by decide
  have e7 : countSS ([' ', '/', '*', ' '] : List Char) = 0 := by decide
  have e8 : countSS ([' '] : List Char) = 0 := by decide
  omega

/-- The core of idempotence: the rewritten form of a once-matched line (from a
line whose `*/` budget was at most one) admits no further match. -/
theorem no_rematch (p g B t : List Char) (hp : countSS p = 0) (hg : countSS g = 0)
    (ht : countSS t = 0) (hlast : p.getLast? ≠ some '*')
    (hhex : B.all isHexUp = true) :
    findMatch (rewriteLine p g B t) = none := by
  cases hfm : findMatch (rewriteLine p g B t) with
  | none => rfl
  | some pgbt =>
    exfalso
    obtain ⟨p', g', B', t'⟩ := pgbt
    obtain ⟨heq, hg', h8', hhex', hins'⟩ := findMatch_sound _ p' g' B' t' hfm
    have heq2 : (p ++ ['/', '*', ' '] ++ g ++ [' '] ++ B ++ [' ']) ++ '*' :: '/' ::
        (([' ', ' '] ++ wordChunk B ++ [' ', '/', '*', ' '] ++ t ++ [' ']) ++
          '*' :: '/' :: []) =
        (p' ++ ['/', '*', ' '] ++ g' ++ [' '] ++ B' ++ [' ']) ++ '*' :: '/' ::
          (' ' :: ' ' :: t') := by
      rw [← rewrite_decomp]
      rw [heq]
      simp [List.append_assoc]
    have hA0 : countSS (p ++ ['/', '*', ' '] ++ g ++ [' '] ++ B ++ [' ']) = 0 :=
      countSS_A_zero p g B hp hg hhex hlast
    have hB0 : countSS ([' ', ' '] ++ wordChunk B ++ [' ', '/', '*', ' '] ++ t ++ [' '])
        = 0 := countSS_Bmu_zero B t ht hhex
    rcases decomp_two (p ++ ['/', '*', ' '] ++ g ++ [' '] ++ B ++ [' ']) hA0
        ([' ', ' '] ++ wordChunk B ++ [' ', '/', '*', ' '] ++ t ++ [' ']) []
        (p' ++ ['/', '*', ' '] ++ g' ++ [' '] ++ B' ++ [' ']) (' ' :: ' ' :: t')
        hB0 rfl heq2 with ⟨_, hY⟩ | ⟨_, hY⟩
    · have hY2 := hY
      simp only [List.cons_append, List.nil_append, List.append_assoc] at hY2
      injection hY2 with _ hY2
      injection hY2 with _ hY2
      rw [hY2] at hins'
      rw [insOk_wordChunk] at hins'
      simp at hins'
    · simp at hY

theorem splitOnChar_ne_nil (sep : Char) : ∀ l : List Char, splitOnChar sep l ≠ [] := by
  intro l
  cases l with
  | nil => simp [splitOnChar]
  | cons c t =>
    unfold splitOnChar
    by_cases hc : c = sep
    · simp [hc]
    · rw [if_neg hc]
      cases splitOnChar sep t with
      | nil => simp
      | cons x xs => simp

theorem not_mem_of_mem_splitOnChar (sep : Char) : ∀ (l x : List Char),
    x ∈ splitOnChar sep l → sep ∉ x := by
  intro l
  induction l with
  | nil =>
    intro x hx
    simp [splitOnChar] at hx
    simp [hx]
  | cons c t ih =>
    intro x hx
    unfold splitOnChar at hx
    by_cases hc : c = sep
    · rw [if_pos hc] at hx
      rcases List.mem_cons.mp hx with hx | hx
      · simp [hx]
      · exact ih x hx
    · rw [if_neg hc] at hx
      cases hsp : splitOnChar sep t with
      | nil => exact absurd hsp (splitOnChar_ne_nil sep t)
      | cons y ys =>
        rw [hsp] at hx
        rcases List.mem_cons.mp hx with hx | hx
        · subst hx
          intro hmem
          rcases List.mem_cons.mp hmem with hmem | hmem
          · exact hc hmem.symm
          · exact ih y (by rw [hsp]; exact List.mem_cons_self y ys) hmem
        · exact ih x (by rw [hsp]; exact List.mem_cons_of_mem y hx)

theorem splitOnChar_no_sep (sep : Char) : ∀ l : List Char, sep ∉ l →
    splitOnChar sep l = [l] := by
  intro l
  induction l with
  | nil => intro _; rfl
  | cons c t ih =>
    intro h
    simp only [List.mem_cons, not_or] at h
    unfold splitOnChar
    rw [if_neg (fun hc => h.1 hc.symm)]
    rw [ih h.2]

theorem splitOnChar_cons_sep (sep : Char) : ∀ (l r : List Char), sep ∉ l →
    splitOnChar sep (l ++ sep :: r) = l :: splitOnChar sep r := by
  intro l
  induction l with
  | nil =>
    intro r _
    show splitOnChar sep (sep :: r) = [] :: splitOnChar sep r
    conv_lhs => rw [splitOnChar]
    rw [if_pos rfl]
  | cons c t ih =>
    intro r h
    simp only [List.mem_cons, not_or] at h
    show splitOnChar sep (c :: (t ++ sep :: r)) = (c :: t) :: splitOnChar sep r
    conv_lhs => rw [splitOnChar]
    rw [if_neg (fun hc => h.1 hc.symm), ih r h.2]

theorem splitOnChar_joinChar (sep : Char) : ∀ L : List (List Char), L ≠ [] →
    (∀ x ∈ L, sep ∉ x) → splitOnChar sep (joinChar sep L) = L := by
  intro L
  induction L with
  | nil => intro h _; exact absurd rfl h
  | cons l L ih =>
    intro _ hmem
    cases L with
    | nil =>
      show splitOnChar sep l = [l]
      exact splitOnChar_no_sep sep l (hmem l (by simp))
    | cons l' L' =>
      show splitOnChar sep (l ++ sep :: joinChar sep (l' :: L')) = l :: (l' :: L')
      rw [splitOnChar_cons_sep sep l _ (hmem l (by simp))]
      rw [ih (by simp) (fun x hx => hmem x (List.mem_cons_of_mem l hx))]

theorem mem_swapPairs (c : Char) (B : List Char) (h : c ∈ swapPairs B) : c ∈ B := by
  simp only [swapPairs, List.mem_append] at h
  rcases h with ((h | h) | h) | h <;>
    first
      | exact List.mem_of_mem_drop (List.mem_of_mem_take h)
      | exact List.mem_of_mem_take h

theorem patchLine_no_nl (l : List Char) (h : '\n' ∉ l) : '\n' ∉ patchLine l := by
  unfold patchLine
  cases hfm : findMatch l with
  | none => exact h
  | some pgbt =>
    obtain ⟨p, g, B, t⟩ := pgbt
    obtain ⟨heq, _, _, _, _⟩ := findMatch_sound l p g B t hfm
    intro hmem
    apply h
    rw [heq]
    have hswap := mem_swapPairs '\n' B
    simp only [rewriteLine, wordChunk, List.mem_append, List.mem_cons] at hmem
    simp only [List.mem_append, List.mem_cons]
    simp at hmem ⊢
    tauto

/-! ### Line-level structure and idempotence of the substitution pass -/

/-- Substituting on a whole content and re-splitting gives exactly the
line-by-line substitution. -/
theorem splitNl_patchContent (c : List Char) :
    splitNl (patchContent c) = (splitNl c).map patchLine := by
  unfold patchContent joinNl splitNl
  apply splitOnChar_joinChar
  · intro hnil
    rcases hL : splitOnChar '\n' c with _ | ⟨x, xs⟩
    · exact splitOnChar_ne_nil '\n' c hL
    · rw [hL] at hnil
      simp at hnil
  · intro x hx
    rcases List.mem_map.mp hx with ⟨l, hl, hpl⟩
    rw [← hpl]
    exact patchLine_no_nl l (not_mem_of_mem_splitOnChar '\n' c l hl)

/-- One substitution pass exhausts all matches on a line whose closing
delimiter occurs at most once. -/
theorem patchLine_idem (l : List Char) (hle : countSS l ≤ 1) :
    patchLine (patchLine l) = patchLine l := by
  cases hfm : findMatch l with
  | none =>
    have h1 : patchLine l = l := by unfold patchLine; rw [hfm]
    rw [h1]
    exact h1
  | some pgbt =>
    obtain ⟨p, g, B, t⟩ := pgbt
    have hsp := findMatch_sound l p g B t hfm
    obtain ⟨hp, hg, ht, hlast⟩ := isSplit_counts l p g B t hsp hle
    obtain ⟨_, _, _, hhex, _⟩ := hsp
    have h1 : patchLine l = rewriteLine p g B t := by unfold patchLine; rw [hfm]
    rw [h1]
    unfold patchLine
    rw [no_rematch p g B t hp hg ht hlast hhex]

/-- Substitution is idempotent on content each of whose lines holds the
closing delimiter at most once. -/
theorem patchContent_idem (c : List Char)
    (h : ∀ l ∈ splitNl c, countSS l ≤ 1) :
    patchContent (patchContent c) = patchContent c := by
  have h1 : patchContent (patchContent c) =
      joinNl ((splitNl (patchContent c)).map patchLine) := rfl
  rw [h1, splitNl_patchContent, List.map_map]
  show joinNl ((splitNl c).map (fun l => patchLine (patchLine l))) = patchContent c
  unfold patchContent
  congr 1
  apply List.map_congr_left
  intro l hl
  exact patchLine_idem l (h l hl)

/-- The per-file pass is idempotent under the same per-line budget. -/
theorem patchFile_idem (f : AsmFile)
    (h : ∀ l ∈ splitNl f.content, countSS l ≤ 1) :
    patchFile (patchFile f) = patchFile f := by
  cases hpf : PROBLEMATIC_FUNCS.contains f.stem with
  | false =>
    have h1 : patchFile f = f := by unfold patchFile; rw [hpf]; simp
    rw [h1]
    exact h1
  | true =>
    cases hm : hasMatch f.content with
    | false =>
      have h1 : patchFile f = f := by unfold patchFile; rw [hpf, hm]; simp
      rw [h1]
      exact h1
    | true =>
      have h1 : patchFile f = { f with content := patchContent f.content } := by
        unfold patchFile
        rw [hpf, hm]
        simp
      rw [h1]
      show patchFile ⟨f.stem, patchContent f.content⟩ = ⟨f.stem, patchContent f.content⟩
      unfold patchFile
      rw [hpf]
      cases hm2 : hasMatch (patchContent f.content) with
      | false => simp
      | true =>
        simp only [if_pos rfl]
        show (⟨f.stem, patchContent (patchContent f.content)⟩ : AsmFile) =
          ⟨f.stem, patchContent f.content⟩
        rw [patchContent_idem f.content h]

/-- Claim C8 (corrected): a file whose base name is outside `PROBLEMATIC_FUNCS`
is returned byte-for-byte unchanged; an allow-listed file with a match is
rewritten line by line; a line is rewritten exactly when it decomposes as a
comment whose final token is EIGHT CONTIGUOUS uppercase-hex characters (the
four byte-pairs written without separators), two spaces, and a branch-family
instruction; the rewritten line keeps the comment unchanged and inserts a
`.word` directive whose operand is the byte block in reversed pair order,
with the original instruction as a trailing comment. -/
theorem c8_amended :
    (∀ f : AsmFile, PROBLEMATIC_FUNCS.contains f.stem = false → patchFile f = f) ∧
    (∀ f : AsmFile, PROBLEMATIC_FUNCS.contains f.stem = true →
      hasMatch f.content = true →
      splitNl (patchFile f).content = (splitNl f.content).map patchLine) ∧
    (∀ l p g B t : List Char, IsSplit l p g B t → (findMatch l).isSome = true) ∧
    (∀ l p g B t : List Char, findMatch l = some (p, g, B, t) →
      IsSplit l p g B t ∧ patchLine l = rewriteLine p g B t) := by
  refine ⟨?_, ?_, ?_, ?_⟩
  · intro f hpf
    unfold patchFile
    rw [hpf]
    simp
  · intro f hpf hm
    have h1 : patchFile f = { f with content := patchContent f.content } := by
      unfold patchFile
      rw [hpf, hm]
      simp
    rw [h1]
    exact splitNl_patchContent f.content
  · intro l p g B t hsp
    exact findMatch_complete p l g B t hsp
  · intro l p g B t hfm
    refine ⟨findMatch_sound l p g B t hfm, ?_⟩
    unfold patchLine
    rw [hfm]

/-- Claim C8 counterexample: the spec's own example line writes the four
byte-pairs with spaces (`/* bne 12 34 56 78 */  bne $a0, $a1, label`); in an
allow-listed file that line does NOT match `OPCODE_PATTERN` (which requires
the eight hex characters contiguously) and the file is left byte-for-byte
unchanged, so no `.word 0x78563412` is embedded. -/
theorem c8_counterexample :
    PROBLEMATIC_FUNCS.contains c8File.stem = true ∧
    hasMatch c8File.content = false ∧
    replace_instructions_with_opcodes [c8File] = [c8File] := by
  refine ⟨by decide, by decide, by decide⟩

/-- Witness for the amended C8 at concrete inputs: a non-listed file is
unchanged, an allow-listed file is rewritten line by line, and the correctly
formatted line `/* bne 14A00004 */  bne $a0, $a1, label` is rewritten to
`/* bne 14A00004 */  .word      0x0400A014 /* bne $a0, $a1, label */`. -/
theorem c8_witness :
    patchFile { stem := "func_99999999", content := c8GoodLine } =
      { stem := "func_99999999", content := c8GoodLine } ∧
    splitNl (patchFile { stem := "func_00107760", content := c8GoodLine }).content =
      (splitNl c8GoodLine).map patchLine ∧
    (findMatch c8GoodLine).isSome = true ∧
    patchLine c8GoodLine =
      "/* bne 14A00004 */  .word      0x0400A014 /* bne $a0, $a1, label */".toList := by
  refine ⟨c8_amended.1 _ (by decide), c8_amended.2.1 _ (by decide) (by decide),
    c8_amended.2.2.1 c8GoodLine [] ("bne".toList) ("14A00004".toList)
      ("bne $a0, $a1, label".toList) ⟨rfl, by decide, rfl, rfl, rfl⟩,
    ((c8_amended.2.2.2 c8GoodLine [] ("bne".toList) ("14A00004".toList)
      ("bne $a0, $a1, label".toList) (by decide)).2).trans (by decide)⟩

/-- Claim C9 (corrected): the pass is idempotent on every file tree in which
no line holds the closing delimiter `*/` more than once (true of the real
disassembly, where a line carries at most one comment): a rewritten line
admits no further match, and a file with no match is returned unchanged. The
unconditional claim is false: the substitution keeps the unmatched prefix —
which may itself end in a full comment — in front of a freshly inserted
` */  ` separator, which can assemble a new match for the second pass. -/
theorem c9_amended (files : List AsmFile)
    (h : ∀ f ∈ files, ∀ l ∈ splitNl f.content, countSS l ≤ 1) :
    replace_instructions_with_opcodes (replace_instructions_with_opcodes files) =
      replace_instructions_with_opcodes files ∧
    (∀ f : AsmFile, hasMatch f.content = false → patchFile f = f) ∧
    (∀ p g B t : List Char, countSS p = 0 → countSS g = 0 → countSS t = 0 →
      p.getLast? ≠ some '*' → B.all isHexUp = true →
      findMatch (rewriteLine p g B t) = none) := by
  refine ⟨?_, ?_, ?_⟩
  · show (files.map patchFile).map patchFile = files.map patchFile
    rw [List.map_map]
    apply List.map_congr_left
    intro f hf
    exact patchFile_idem f (h f hf)
  · intro f hm
    unfold patchFile
    rw [hm]
    simp
  · exact fun p g B t hp hg ht hl hh => no_rematch p g B t hp hg ht hl hh

/-- Claim C9 counterexample: in the allow-listed file `func_00107D68` the line
`/* x AABBCCDD */  bne foo /* y EEFF0011 */  bne bar` is rewritten once by the
first pass (at the second comment), and the resulting line — whose prefix
still ends with the first comment — matches again, so the second pass rewrites
it further: applying the pass twice differs from applying it once. -/
theorem c9_counterexample :
    replace_instructions_with_opcodes (replace_instructions_with_opcodes [c9File]) ≠
      replace_instructions_with_opcodes [c9File] := by decide

/-- Witness for the amended C9 at a concrete one-file tree whose line holds
the closing delimiter exactly once. -/
theorem c9_witness :
    replace_instructions_with_opcodes
        (replace_instructions_with_opcodes [c9WitnessFile]) =
      replace_instructions_with_opcodes [c9WitnessFile] :=
  (c9_amended [c9WitnessFile] (by decide)).1

end Dogcomp
